import Mathlib

/-!
# The self-scaling worker pool of the HTTP server, and its request pipeline

A shallow embedding of `server/worker_pool.go` (namespace `WorkerPool`) and of
`server/helper.go` and `server/http_server.go` (namespace `Server`).

* `Pool`, `NewWorkerPool`, `Submit`, `Shutdown` model the submission gateway.
  The mutex makes the bodies of `Submit` and `Shutdown` mutually exclusive, so a
  concurrent execution of gateway calls is a sequence of calls (`Call`, `runCalls`).
  A runtime panic (send on a closed channel, close of a closed channel) is `none`.
* `Dispatcher`, `step`, `run` model the goroutine `start`: one `Event` is one
  communication chosen by a `select` (or completed by a blocking send), and
  `step` is the code executed in reaction to it.  The dispatcher records every
  communication it performs in a ghost `log`.
* `worker` models the function `worker` on the sequence of values it is offered
  on `workerQueue`.
* Go `int` is modelled by `Int`.  The only arithmetic is `workerLen++` under the
  guard `workerLen < maxWorker` and `workerLen--` under `workerLen > 0`, so no
  operation can leave the 64-bit range.
* In the request pipeline a Go string is the sequence of its characters, and
  `Cut`, `SplitN`, `Split`, `Fields` are the functions of the Go library
  `strings` for the separators the code uses.  A handler is its effect on the
  request, the response and the flag it is given pointers to; `routeRequest`
  also returns the handlers it called.
-/

namespace WorkerPool

/-! ## Data model -/

/-- A Go value of type `func()`: `none` is the nil function, `some a` is the
non-nil closure named `a`. -/
abbrev Task (α : Type) := Option α

/-- A Go channel as far as the pool can observe it: whether it has been closed,
and the values sent on it so far, oldest first. -/
structure Chan (β : Type) where
  closed : Bool
  sent : List β
deriving DecidableEq, Repr

/-- The channel returned by `make(chan T)`. -/
def Chan.make {β : Type} : Chan β :=
  { closed := false, sent := [] }

/-- The send statement `c <- v`; sending on a closed channel panics. -/
def Chan.send {β : Type} (c : Chan β) (v : β) : Option (Chan β) :=
  if c.closed then none else some { c with sent := c.sent ++ [v] }

/-- The call `close(c)`; closing a closed channel panics. -/
def Chan.close {β : Type} (c : Chan β) : Option (Chan β) :=
  if c.closed then none else some { c with closed := true }

/-- The struct `Pool` (the mutex `lock` is modelled by the atomicity of the
gateway calls). -/
structure Pool (α : Type) where
  maxWorker : Int
  taskQueue : Chan (Task α)
  workerQueue : Chan (Task α)
  waitingQueue : List (Task α)
  stop : Chan Unit
  shutdown : Bool
deriving DecidableEq, Repr

/-! ## Submission gateway -/

/-- The constructor `NewWorkerPool(max)`: values below 1 are replaced by 1, the
three channels are fresh, the other fields have their zero values. -/
def NewWorkerPool {α : Type} (max : Int) : Pool α :=
  let max := if max < 1 then 1 else max
  { maxWorker := max
    taskQueue := Chan.make
    workerQueue := Chan.make
    waitingQueue := []
    stop := Chan.make
    shutdown := false }

/-- The method `Submit(task)`.  The send on the unbuffered `taskQueue` completes
when the dispatcher receives the value; the caller holds the lock meanwhile. -/
def Submit {α : Type} (p : Pool α) (task : Task α) : Option (Pool α) :=
  if task.isNone then some p
  else if p.shutdown then some p
  else
    match p.taskQueue.send task with
    | none => none
    | some c => some { p with taskQueue := c }

/-- The method `Shutdown()`. -/
def Shutdown {α : Type} (p : Pool α) : Option (Pool α) :=
  if p.shutdown then some p
  else
    let p1 := { p with shutdown := true }
    match p1.taskQueue.close with
    | none => none
    | some c =>
      let p2 := { p1 with taskQueue := c }
      match p2.stop.close with
      | none => none
      | some d => some { p2 with stop := d }

/-- A call of the gateway by some client goroutine. -/
inductive Call (α : Type) where
  | submit (task : Task α)
  | shutdown
deriving DecidableEq, Repr

/-- One gateway call. -/
def Call.apply {α : Type} (p : Pool α) : Call α → Option (Pool α)
  | .submit task => Submit p task
  | .shutdown => Shutdown p

/-- A sequence of gateway calls in the order in which they acquire the lock;
`none` as soon as one of them panics. -/
def runCalls {α : Type} (p : Pool α) : List (Call α) → Option (Pool α)
  | [] => some p
  | c :: cs =>
    match c.apply p with
    | none => none
    | some p1 => runCalls p1 cs

/-! ## Dispatcher -/

/-- Where the goroutine `start` is: in the labelled loop, in the two loops
after it, or past `close(p.workerQueue)`. -/
inductive Phase where
  | running
  | draining
  | stopped
deriving DecidableEq, Repr

/-- A communication performed by the dispatcher. -/
inductive Action (α : Type) where
  /-- A value was received from `taskQueue`. -/
  | recv (t : Task α)
  /-- The non-blocking send of a newly arrived task on `workerQueue` succeeded. -/
  | handoff (t : Task α)
  /-- The statement `go worker(task, ...)` was executed. -/
  | spawn (t : Task α)
  /-- A task was appended to `waitingQueue`. -/
  | enqueue (t : Task α)
  /-- The head of `waitingQueue` was sent on `workerQueue` and removed. -/
  | dequeue (t : Task α)
  /-- The literal nil was sent on `workerQueue`. -/
  | terminate
deriving DecidableEq, Repr

/-- What the environment offers to the dispatcher. -/
inductive Event (α : Type) where
  /-- Reception of `task` from `taskQueue` with `ok = true`; `workerReady` tells
  whether a worker is blocked in a receive on `workerQueue` at that moment. -/
  | task (t : Task α) (workerReady : Bool)
  /-- Reception from the closed `taskQueue` (`ok = false`). -/
  | closed
  /-- Reception from `timeout.C`; `workerReady` as for `task`. -/
  | tick (workerReady : Bool)
  /-- Reception from the closed channel `stop`. -/
  | stop
  /-- A worker receives from `workerQueue`, which completes a blocking send. -/
  | ready
  /-- Every worker has called `wg.Done()`, so `wg.Wait()` returns. -/
  | joined
deriving DecidableEq, Repr

/-- The state of the goroutine `start`: the fields of the pool it owns, its
local variables, its control point and the ghost log. -/
structure Dispatcher (α : Type) where
  maxWorker : Int
  waitingQueue : List (Task α)
  workerLen : Int
  idle : Bool
  phase : Phase
  log : List (Action α)
deriving DecidableEq, Repr

/-- The state in which `go newPool.start()` enters the loop. -/
def start {α : Type} (p : Pool α) : Dispatcher α :=
  { maxWorker := p.maxWorker
    waitingQueue := p.waitingQueue
    workerLen := 0
    idle := false
    phase := .running
    log := [] }

/-- The method `killIdleWorker`: a non-blocking send of nil. -/
def killIdleWorker {α : Type} (s : Dispatcher α) (workerReady : Bool) : Dispatcher α × Bool :=
  if workerReady then ({ s with log := s.log ++ [.terminate] }, true)
  else (s, false)

/-- The method `processWaiting`: a `select` between a receive from `taskQueue`
and a send of `waitingQueue[0]`.  `none`: the event is not one this `select`
waits for (or the queue is empty, where the index expression would panic; the
loop never calls it so). -/
def processWaiting {α : Type} (s : Dispatcher α) (e : Event α) : Option (Dispatcher α × Bool) :=
  match s.waitingQueue with
  | [] => none
  | head :: rest =>
    match e with
    | .task t _ =>
      some ({ s with waitingQueue := s.waitingQueue ++ [t]
                     log := s.log ++ [.recv t, .enqueue t] }, true)
    | .closed => some (s, false)
    | .ready =>
      some ({ s with waitingQueue := rest
                     log := s.log ++ [.dequeue head] }, true)
    | _ => none

/-- The reaction of `start` to one event; `none` when no `select` or blocking
send at the current control point waits for that event. -/
def step {α : Type} (s : Dispatcher α) (e : Event α) : Option (Dispatcher α) :=
  match s.phase with
  | .running =>
    if s.waitingQueue.length ≠ 0 then
      match processWaiting s e with
      | none => none
      | some (s1, true) => some s1
      | some (s1, false) => some { s1 with phase := .draining }
    else
      match e with
      | .task t workerReady =>
        let s1 : Dispatcher α := { s with log := s.log ++ [.recv t] }
        let s2 : Dispatcher α :=
          if workerReady then { s1 with log := s1.log ++ [.handoff t] }
          else if s1.workerLen < s1.maxWorker then
            { s1 with workerLen := s1.workerLen + 1, log := s1.log ++ [.spawn t] }
          else
            { s1 with waitingQueue := s1.waitingQueue ++ [t], log := s1.log ++ [.enqueue t] }
        some { s2 with idle := false }
      | .closed => some { s with phase := .draining }
      | .tick workerReady =>
        let s1 : Dispatcher α :=
          if s.idle && decide (s.workerLen > 0) then
            match killIdleWorker s workerReady with
            | (s1, true) => { s1 with workerLen := s1.workerLen - 1 }
            | (s1, false) => s1
          else s
        some { s1 with idle := true }
      | .stop => some { s with phase := .draining }
      | _ => none
  | .draining =>
    match e with
    | .ready =>
      match s.waitingQueue with
      | head :: rest =>
        some { s with waitingQueue := rest, log := s.log ++ [.dequeue head] }
      | [] =>
        if s.workerLen > 0 then
          some { s with workerLen := s.workerLen - 1, log := s.log ++ [.terminate] }
        else none
    | .joined =>
      if s.waitingQueue.length = 0 ∧ ¬ s.workerLen > 0 then some { s with phase := .stopped }
      else none
    | _ => none
  | .stopped => none

/-- The dispatcher after a sequence of events; an event nothing waits for
stays pending and leaves the state as it is. -/
def run {α : Type} (s : Dispatcher α) : List (Event α) → Dispatcher α
  | [] => s
  | e :: es => run ((step s e).getD s) es

/-! ## Projections of the log -/

/-- The tasks received from `taskQueue`, in order. -/
def received {α : Type} (log : List (Action α)) : List (Task α) :=
  log.filterMap fun a => match a with
    | .recv t => some t
    | _ => none

/-- The tasks given to a worker (sent on `workerQueue` or bound to a new
worker), in order. -/
def delivered {α : Type} (log : List (Action α)) : List (Task α) :=
  log.filterMap fun a => match a with
    | .handoff t => some t
    | .spawn t => some t
    | .dequeue t => some t
    | _ => none

/-- The tasks appended to `waitingQueue`, in order. -/
def enqueued {α : Type} (log : List (Action α)) : List (Task α) :=
  log.filterMap fun a => match a with
    | .enqueue t => some t
    | _ => none

/-- The tasks removed from `waitingQueue` and sent to a worker, in order. -/
def dequeued {α : Type} (log : List (Action α)) : List (Task α) :=
  log.filterMap fun a => match a with
    | .dequeue t => some t
    | _ => none

/-- The values sent on `workerQueue`, in order. -/
def workerQueueSent {α : Type} (log : List (Action α)) : List (Task α) :=
  log.filterMap fun a => match a with
    | .handoff t => some t
    | .dequeue t => some t
    | .terminate => some none
    | _ => none

/-- The number of termination signals sent. -/
def terminations {α : Type} (log : List (Action α)) : Nat :=
  log.countP fun a => match a with
    | .terminate => true
    | _ => false

/-- The tasks that arrive in a sequence of events. -/
def arrivals {α : Type} (es : List (Event α)) : List (Task α) :=
  es.filterMap fun e => match e with
    | .task t _ => some t
    | _ => none

/-- The drain scenario: a pool of one worker, five tasks submitted while the
worker is busy, then `Shutdown`; the state in which the dispatcher leaves its
loop. -/
def drainScenario : Dispatcher Nat :=
  run (start (NewWorkerPool 1))
    [.task (some 1) false, .task (some 2) false, .task (some 3) false,
      .task (some 4) false, .task (some 5) false, .closed]

/-- The gateway calls of the nil scenario: two tasks and a nil are submitted to
a pool of two workers. -/
def nilScenarioCalls : List (Call Nat) :=
  [.submit (some 1), .submit none, .submit (some 2)]

/-- The events of the nil scenario: the dispatcher receives what the gateway
sent, a worker is evicted after two ticks, and the pool is shut down. -/
def nilScenarioEvents : List (Event Nat) :=
  [.task (some 1) false, .task (some 2) false, .tick true, .tick true, .stop, .ready]

/-- A dispatcher with one worker, nothing waiting, and a tick already seen
with no dispatch since: a task arrived, a worker was spawned, the timer fired. -/
def idleScenario : Dispatcher Nat :=
  run (start (NewWorkerPool 1)) [.task (some 0) false, .tick false]

/-! ## The transitions case by case, and the invariants -/

/-- The transitions of `step`, one constructor per path through the code. -/
inductive Step {α : Type} : Dispatcher α → Event α → Dispatcher α → Prop where
  | waitTask (s : Dispatcher α) (head : Task α) (rest : List (Task α)) (t : Task α) (b : Bool) :
      s.phase = .running → s.waitingQueue = head :: rest →
      Step s (.task t b)
        { s with waitingQueue := s.waitingQueue ++ [t], log := s.log ++ [.recv t, .enqueue t] }
  | waitClosed (s : Dispatcher α) :
      s.phase = .running → s.waitingQueue ≠ [] →
      Step s .closed { s with phase := .draining }
  | waitReady (s : Dispatcher α) (head : Task α) (rest : List (Task α)) :
      s.phase = .running → s.waitingQueue = head :: rest →
      Step s .ready { s with waitingQueue := rest, log := s.log ++ [.dequeue head] }
  | handoff (s : Dispatcher α) (t : Task α) :
      s.phase = .running → s.waitingQueue = [] →
      Step s (.task t true)
        { s with idle := false, log := s.log ++ [.recv t, .handoff t] }
  | spawn (s : Dispatcher α) (t : Task α) :
      s.phase = .running → s.waitingQueue = [] → s.workerLen < s.maxWorker →
      Step s (.task t false)
        { s with idle := false, workerLen := s.workerLen + 1, log := s.log ++ [.recv t, .spawn t] }
  | enqueue (s : Dispatcher α) (t : Task α) :
      s.phase = .running → s.waitingQueue = [] → ¬ s.workerLen < s.maxWorker →
      Step s (.task t false)
        { s with idle := false, waitingQueue := [t], log := s.log ++ [.recv t, .enqueue t] }
  | closed (s : Dispatcher α) :
      s.phase = .running → s.waitingQueue = [] →
      Step s .closed { s with phase := .draining }
  | stop (s : Dispatcher α) :
      s.phase = .running → s.waitingQueue = [] →
      Step s .stop { s with phase := .draining }
  | evict (s : Dispatcher α) :
      s.phase = .running → s.waitingQueue = [] → s.idle = true → 0 < s.workerLen →
      Step s (.tick true)
        { s with idle := true, workerLen := s.workerLen - 1, log := s.log ++ [.terminate] }
  | tick (s : Dispatcher α) (b : Bool) :
      s.phase = .running → s.waitingQueue = [] →
      ¬ (s.idle = true ∧ 0 < s.workerLen ∧ b = true) →
      Step s (.tick b) { s with idle := true }
  | drainTask (s : Dispatcher α) (head : Task α) (rest : List (Task α)) :
      s.phase = .draining → s.waitingQueue = head :: rest →
      Step s .ready { s with waitingQueue := rest, log := s.log ++ [.dequeue head] }
  | drainWorker (s : Dispatcher α) :
      s.phase = .draining → s.waitingQueue = [] → 0 < s.workerLen →
      Step s .ready { s with workerLen := s.workerLen - 1, log := s.log ++ [.terminate] }
  | joined (s : Dispatcher α) :
      s.phase = .draining → s.waitingQueue = [] → ¬ 0 < s.workerLen →
      Step s .joined { s with phase := .stopped }

/-- The capacity invariant together with saturation of a pool that queues. -/
def CapInv {α : Type} (s : Dispatcher α) : Prop :=
  0 ≤ s.workerLen ∧ s.workerLen ≤ s.maxWorker ∧
    (s.waitingQueue ≠ [] → s.workerLen = s.maxWorker)

/-- The log accounts for every task: what was received is what was delivered
followed by what waits, and what was enqueued is what was dequeued followed by
what waits. -/
def LogInv {α : Type} (s : Dispatcher α) : Prop :=
  received s.log = delivered s.log ++ s.waitingQueue ∧
    enqueued s.log = dequeued s.log ++ s.waitingQueue

/-- A dispatcher that has returned has an empty waiting queue. -/
def StopInv {α : Type} (s : Dispatcher α) : Prop :=
  s.phase = .stopped → s.waitingQueue = []

/-- What the gateway keeps true of a pool: `taskQueue` and `stop` are closed
exactly when the shutdown flag is set, and no nil was ever sent on `taskQueue`. -/
def GatewayInv {α : Type} (p : Pool α) : Prop :=
  p.taskQueue.closed = p.shutdown ∧ p.stop.closed = p.shutdown ∧
    ∀ t ∈ p.taskQueue.sent, t ≠ none

/-- The dispatcher after it has handled every event of a sequence, one after
the other; `none` when one of them is not an event the dispatcher waits for at
that point. -/
def handle {α : Type} (s : Dispatcher α) : List (Event α) → Option (Dispatcher α)
  | [] => some s
  | e :: es =>
    match step s e with
    | none => none
    | some s1 => handle s1 es

/-- The tasks bound to spawned workers, in order. -/
def spawned {α : Type} (log : List (Action α)) : List (Task α) :=
  log.filterMap fun a => match a with
    | .spawn t => some t
    | _ => none

/-- While tasks wait, the idle flag is unset. -/
def IdleInv {α : Type} (s : Dispatcher α) : Prop :=
  s.waitingQueue ≠ [] → s.idle = false

/-- The workers spawned and not yet sent a termination signal are the workers
counted. -/
def LiveInv {α : Type} (s : Dispatcher α) : Prop :=
  (terminations s.log : Int) = ((spawned s.log).length : Int) - s.workerLen

/-- Whether, along the events handled from `s`, a tick has been handled and,
since the last tick handled, no task has arrived from `taskQueue` and no task
has been handed from the waiting queue to a worker; `q` is the answer before the
first event. -/
def quiet {α : Type} (s : Dispatcher α) : List (Event α) → Bool → Bool
  | [], q => q
  | e :: es, q =>
    match step s e with
    | none => quiet s es q
    | some s1 =>
      quiet s1 es
        (match e with
          | .tick _ => true
          | .task _ _ => false
          | .ready => if s.waitingQueue.length ≠ 0 then false else q
          | _ => q)

/-! ## Worker -/

/-- What a worker has done once it has returned, or once it has received every
value offered to it and waits for the next. -/
structure WorkerRun (α : Type) where
  /-- The closures called, in order. -/
  executed : List α
  /-- The values offered on `workerQueue` that the worker did not receive. -/
  unread : List (Task α)
  /-- Whether `worker` has returned; if not, it is blocked in its receive. -/
  exited : Bool
  /-- How many times the deferred `wg.Done()` has run. -/
  done : Nat
deriving DecidableEq, Repr

/-- The loop `for task != nil { task(); task = <-workerQueue }` followed by the
deferred `wg.Done()`, on the values `queue` that the worker is offered on
`workerQueue`; `acc` are the closures already called. -/
def workerLoop {α : Type} : Task α → List (Task α) → List α → WorkerRun α
  | none, queue, acc => { executed := acc, unread := queue, exited := true, done := 1 }
  | some f, [], acc => { executed := acc ++ [f], unread := [], exited := false, done := 0 }
  | some f, v :: queue, acc => workerLoop v queue (acc ++ [f])

/-- The function `worker(task, workerQueue, wg)`. -/
def worker {α : Type} (task : Task α) (workerQueue : List (Task α)) : WorkerRun α :=
  workerLoop task workerQueue []

end WorkerPool

namespace Server

/-! ## Request pipeline: strings -/

/-- A Go string, as the sequence of its characters (the bytes read from the
connection, taken as UTF-8 text). -/
abbrev Str := List Char

/-- The predicate `unicode.IsSpace` of the Go library: the characters with the
Unicode property White_Space. -/
def isSpace (c : Char) : Bool :=
  (9 ≤ c.toNat && c.toNat ≤ 13) || c.toNat = 32 || c.toNat = 0x85 || c.toNat = 0xA0 ||
    c.toNat = 0x1680 || (0x2000 ≤ c.toNat && c.toNat ≤ 0x200A) || c.toNat = 0x2028 ||
    c.toNat = 0x2029 || c.toNat = 0x202F || c.toNat = 0x205F || c.toNat = 0x3000

/-- The loop of `strings.Fields` of the Go library: `cur` is the field being
read, in reverse. -/
def fieldsLoop : Str → Str → List Str
  | [], cur => if cur.length = 0 then [] else [cur.reverse]
  | c :: rest, cur =>
    if isSpace c then
      if cur.length = 0 then fieldsLoop rest [] else cur.reverse :: fieldsLoop rest []
    else fieldsLoop rest (c :: cur)

/-- The function `strings.Fields(s)` of the Go library: the maximal runs of
characters that are not white space. -/
def Fields (s : Str) : List Str :=
  fieldsLoop s []

/-- The function `strings.Cut(s, sep)` of the Go library for a non-empty `sep`:
the text before the first instance of `sep`, and the text after it when there
is one. -/
def Cut : Str → Str → Str × Option Str
  | [], _ => ([], none)
  | c :: rest, sep =>
    if sep.isPrefixOf (c :: rest) then ([], some ((c :: rest).drop sep.length))
    else ((c :: (Cut rest sep).1), (Cut rest sep).2)

/-- The function `strings.SplitN(s, sep, n)` of the Go library for a non-empty
`sep` and `n ≥ 0`: at most `n` pieces, the last one the unsplit remainder. -/
def SplitN (s sep : Str) : Nat → List Str
  | 0 => []
  | 1 => [s]
  | n + 2 =>
    match Cut s sep with
    | (before, none) => [before]
    | (before, some after) => before :: SplitN after sep (n + 1)

/-- The function `strings.Split(s, sep)` of the Go library for a non-empty
`sep`: `SplitN` with room for every piece (a text of `k` characters has at most
`k + 1` pieces). -/
def Split (s sep : Str) : List Str :=
  SplitN s sep (s.length + 1)

/-! ## Request pipeline: requests, responses, handlers -/

/-- A Go `map[string]string`, as the list of its entries, newest first. -/
abbrev Headers := List (Str × Str)

/-- The assignment `m[k] = v`. -/
def Headers.set (m : Headers) (k v : Str) : Headers :=
  (k, v) :: m.filter fun e => e.1 != k

/-- The struct `HTTPRequest`. -/
structure HTTPRequest where
  Method : Str
  Path : Str
  Headers : Headers
  Body : Str
deriving DecidableEq, Repr

/-- The struct `HTTPResponse`. -/
structure HTTPResponse where
  StatusCode : Int
  Headers : Headers
  Body : Str
deriving DecidableEq, Repr

/-- What a handler can read and write through its three pointers. -/
structure Ctx where
  req : HTTPRequest
  resp : HTTPResponse
  moveAhead : Bool
deriving DecidableEq, Repr

/-- A Go `func(*HTTPRequest, *HTTPResponse, *bool)`, by its effect on what its
arguments point to. -/
abbrev Handler := Ctx → Ctx

/-- The struct `HTTPServer`; `routes` is a Go map from path keys to handlers,
as the list of its entries.  The field `workerPool` is the pool of the first
part and is not read by the request pipeline. -/
structure HTTPServer where
  address : Str
  port : Int
  routes : List (Str × List Handler)
  appMiddleware : List Handler

/-- The constructor `NewHTTPServer(address, port)`. -/
def NewHTTPServer (address : Str) (port : Int) : HTTPServer :=
  { address := address, port := port, routes := [], appMiddleware := [] }

/-- The path key `fmt.Sprintf("%s %s", method, path)`. -/
def pathKey (method path : Str) : Str :=
  method ++ [' '] ++ path

/-- The method `Use(middleware)`. -/
def Use (s : HTTPServer) (middleware : Handler) : HTTPServer :=
  { s with appMiddleware := s.appMiddleware ++ [middleware] }

/-- The method `AddRoute(method, path, handlers...)`; `none` when `log.Fatalf`
ends the process (the key is registered already, or no handler is given). -/
def AddRoute (s : HTTPServer) (method path : Str) (handlers : List Handler) :
    Option HTTPServer :=
  if (s.routes.lookup (pathKey method path)).isSome then none
  else if handlers.length = 0 then none
  else some { s with routes := (pathKey method path, handlers) :: s.routes }

/-- The method `parseRequest(data)`; `none` is the nil pointer. -/
def parseRequest (data : Str) : Option HTTPRequest :=
  let parts := Split data ['\r', '\n', '\r', '\n']
  let firstSection := parts.headD []
  let lines := Split firstSection ['\r', '\n']
  if lines.length = 0 then none
  else
    let requestLine := Fields (lines.headD [])
    if requestLine.length ≠ 3 then none
    else
      let headers : Headers :=
        (lines.drop 1).foldl
          (fun (headers : Headers) (line : Str) =>
            if line.length = 0 then headers
            else
              let parts := SplitN line [':', ' '] 2
              if parts.length = 2 then headers.set (parts.getD 0 []) (parts.getD 1 [])
              else headers)
          []
      let body : Str := if parts.length > 1 then parts.getD 1 [] else []
      some
        { Method := requestLine.getD 0 []
          Path := requestLine.getD 1 []
          Headers := headers
          Body := body }

/-- A `for _, h := range handlers { h(req, resp, &moveAhead); if !moveAhead {
return } }` loop of `routeRequest`: the values pointed to after the loop, and the
handlers that were called, in order.  The loop was left by `return` exactly when
`moveAhead` is false afterwards and a handler was called. -/
def runChain : List Handler → Ctx → Ctx × List Handler
  | [], c => (c, [])
  | h :: hs, c =>
    if !(h c).moveAhead then (h c, [h])
    else ((runChain hs (h c)).1, h :: (runChain hs (h c)).2)

/-- The method `routeRequest(req, resp)`: the request, the response and the
flag when it returns, and the middleware and handlers it called, in order.
The path key is computed before the first middleware runs. -/
def routeRequest (s : HTTPServer) (req : HTTPRequest) (resp : HTTPResponse) :
    Ctx × List Handler :=
  let key := pathKey req.Method req.Path
  let m := runChain s.appMiddleware { req := req, resp := resp, moveAhead := true }
  if !m.1.moveAhead then m
  else
    match s.routes.lookup key with
    | none => m
    | some routeHandlers =>
      let r := runChain routeHandlers m.1
      (r.1, m.2 ++ r.2)

/-- The method `handleConnection(conn)` after a successful read of `data`: the
response it passes to `writeResponse`. -/
def handleConnection (s : HTTPServer) (data : Str) : HTTPResponse :=
  match parseRequest data with
  | none => { StatusCode := 400, Headers := [], Body := "Bad Request".toList }
  | some req =>
    let resp := (routeRequest s req { StatusCode := 0, Headers := [], Body := [] }).1.resp
    if resp.StatusCode = 0 then { resp with StatusCode := 404, Body := "Not Found".toList }
    else resp

/-- The request line of a request text: what comes before the first CRLF of
the section that comes before the first empty line (CRLF CRLF). -/
def requestLineText (data : Str) : Str :=
  (Cut (Cut data ['\r', '\n', '\r', '\n']).1 ['\r', '\n']).1

/-! ## Request pipeline: the server of `main.go` -/

/-- The map read `m[k]`: the value of the newest entry, the empty string when
there is none. -/
def Headers.get (m : Headers) (k : Str) : Str :=
  (m.lookup k).getD []

/-- The app-level middleware of `main.go`: it only logs. -/
def loggingMiddleware : Handler :=
  fun c => c

/-- The handler of `GET /health` in `main.go`. -/
def healthHandler : Handler :=
  fun c =>
    { c with
      resp :=
        { StatusCode := 200
          Headers := c.resp.Headers.set "Content-Type".toList "application/json".toList
          Body := "OK\r\n".toList } }

/-- The route-specific middleware of `GET /secure` in `main.go`. -/
def authMiddleware : Handler :=
  fun c =>
    if c.req.Headers.get "Authorization".toList != "Bearer valid-token".toList then
      { c with
        resp := { c.resp with StatusCode := 401, Body := "Unauthorized \r\n".toList }
        moveAhead := false }
    else c

/-- The route handler of `GET /secure` in `main.go`. -/
def secureHandler : Handler :=
  fun c =>
    { c with
      resp :=
        { c.resp with
          StatusCode := 200
          Body := "Welcome to the secure endpoint!\r\n".toList } }

/-- The server that `main` has built when it calls `Start`. -/
def mainServer : HTTPServer :=
  { address := "0.0.0.0".toList
    port := 4222
    routes :=
      [(pathKey "GET".toList "/secure".toList, [authMiddleware, secureHandler]),
        (pathKey "GET".toList "/health".toList, [healthHandler])]
    appMiddleware := [loggingMiddleware] }

end Server

namespace WorkerPool

/-! ## The transitions of `step` -/

theorem Step.of_step {α : Type} {s s1 : Dispatcher α} {e : Event α}
    (h : step s e = some s1) : Step s e s1 := by
  obtain ⟨mw, q, wl, idle, ph, log⟩ := s
  cases ph
  · cases q with
    | nil =>
      cases e with
      | task t b =>
        cases b
        · by_cases hlt : wl < mw
          · simp [step, hlt] at h
            subst h
            exact Step.spawn ⟨mw, [], wl, idle, .running, log⟩ t rfl rfl hlt
          · simp [step, hlt] at h
            subst h
            exact Step.enqueue ⟨mw, [], wl, idle, .running, log⟩ t rfl rfl hlt
        · simp [step] at h
          subst h
          exact Step.handoff ⟨mw, [], wl, idle, .running, log⟩ t rfl rfl
      | closed =>
        simp [step] at h
        subst h
        exact Step.closed ⟨mw, [], wl, idle, .running, log⟩ rfl rfl
      | tick b =>
        by_cases hk : idle = true ∧ 0 < wl ∧ b = true
        · obtain ⟨hi, hw, hb⟩ := hk
          subst hi hb
          simp [step, killIdleWorker, hw] at h
          subst h
          exact Step.evict ⟨mw, [], wl, true, .running, log⟩ rfl rfl rfl hw
        · have h2 : s1 = ⟨mw, [], wl, true, .running, log⟩ := by
            cases idle <;> cases b <;> by_cases hw : 0 < wl <;>
              simp [step, killIdleWorker, hw] at h hk ⊢ <;> exact h.symm
          subst h2
          exact Step.tick ⟨mw, [], wl, idle, .running, log⟩ b rfl rfl hk
      | stop =>
        simp [step] at h
        subst h
        exact Step.stop ⟨mw, [], wl, idle, .running, log⟩ rfl rfl
      | ready => simp [step] at h
      | joined => simp [step] at h
    | cons head rest =>
      cases e with
      | task t b =>
        simp [step, processWaiting] at h
        subst h
        exact Step.waitTask ⟨mw, head :: rest, wl, idle, .running, log⟩ head rest t b rfl rfl
      | closed =>
        simp [step, processWaiting] at h
        subst h
        exact Step.waitClosed ⟨mw, head :: rest, wl, idle, .running, log⟩ rfl (by simp)
      | tick b => simp [step, processWaiting] at h
      | stop => simp [step, processWaiting] at h
      | ready =>
        simp [step, processWaiting] at h
        subst h
        exact Step.waitReady ⟨mw, head :: rest, wl, idle, .running, log⟩ head rest rfl rfl
      | joined => simp [step, processWaiting] at h
  · cases e with
    | ready =>
      cases q with
      | nil =>
        by_cases hw : 0 < wl
        · simp [step, hw] at h
          subst h
          exact Step.drainWorker ⟨mw, [], wl, idle, .draining, log⟩ rfl rfl hw
        · simp [step, hw] at h
      | cons head rest =>
        simp [step] at h
        subst h
        exact Step.drainTask ⟨mw, head :: rest, wl, idle, .draining, log⟩ head rest rfl rfl
    | joined =>
      cases q with
      | nil =>
        by_cases hw : 0 < wl
        · simp [step, hw] at h
        · simp [step, hw] at h
          subst h
          exact Step.joined ⟨mw, [], wl, idle, .draining, log⟩ rfl rfl hw
      | cons head rest => simp [step] at h
    | task t b => simp [step] at h
    | closed => simp [step] at h
    | tick b => simp [step] at h
    | stop => simp [step] at h
  · simp [step] at h

theorem Step.to_step {α : Type} {s s1 : Dispatcher α} {e : Event α}
    (h : Step s e s1) : step s e = some s1 := by
  obtain ⟨mw, q, wl, idle, ph, log⟩ := s
  cases h <;> simp_all [step, processWaiting, killIdleWorker]
  case waitClosed =>
    cases q with
    | nil => simp_all
    | cons head rest => simp
  case enqueue _ _ _ hlt =>
    have hn : ¬ wl < mw := by omega
    simp [hn]
  case tick b _ _ hk =>
    by_cases hc : idle = true ∧ 0 < wl
    · have hb : b = false := hk hc.1 hc.2
      simp [hc, hb]
    · simp [hc]

theorem step_iff {α : Type} (s s1 : Dispatcher α) (e : Event α) :
    step s e = some s1 ↔ Step s e s1 :=
  ⟨Step.of_step, Step.to_step⟩

/-! ## Invariants of the dispatcher -/

/-- A property kept by every transition holds along every run. -/
theorem run_induction {α : Type} {P : Dispatcher α → Prop}
    (hstep : ∀ s e s1, Step s e s1 → P s → P s1) :
    ∀ (es : List (Event α)) (s : Dispatcher α), P s → P (run s es) := by
  intro es
  induction es with
  | nil => intro s h; exact h
  | cons e es ih =>
    intro s h
    cases hs : step s e with
    | none => simpa [run, hs] using ih s h
    | some s1 => simpa [run, hs] using ih s1 (hstep s e s1 (Step.of_step hs) h)

theorem run_append {α : Type} (es fs : List (Event α)) (s : Dispatcher α) :
    run s (es ++ fs) = run (run s es) fs := by
  induction es generalizing s with
  | nil => rfl
  | cons e es ih => simp [run, ih]

/-! ### The projections of the log on an extended log -/

@[simp] theorem received_nil {α : Type} : received ([] : List (Action α)) = [] := rfl

@[simp] theorem delivered_nil {α : Type} : delivered ([] : List (Action α)) = [] := rfl

@[simp] theorem enqueued_nil {α : Type} : enqueued ([] : List (Action α)) = [] := rfl

@[simp] theorem dequeued_nil {α : Type} : dequeued ([] : List (Action α)) = [] := rfl

@[simp] theorem workerQueueSent_nil {α : Type} :
    workerQueueSent ([] : List (Action α)) = [] := rfl

@[simp] theorem terminations_nil {α : Type} : terminations ([] : List (Action α)) = 0 := rfl

@[simp] theorem received_append {α : Type} (l m : List (Action α)) :
    received (l ++ m) = received l ++ received m := by
  simp [received, List.filterMap_append]

@[simp] theorem delivered_append {α : Type} (l m : List (Action α)) :
    delivered (l ++ m) = delivered l ++ delivered m := by
  simp [delivered, List.filterMap_append]

@[simp] theorem enqueued_append {α : Type} (l m : List (Action α)) :
    enqueued (l ++ m) = enqueued l ++ enqueued m := by
  simp [enqueued, List.filterMap_append]

@[simp] theorem dequeued_append {α : Type} (l m : List (Action α)) :
    dequeued (l ++ m) = dequeued l ++ dequeued m := by
  simp [dequeued, List.filterMap_append]

@[simp] theorem workerQueueSent_append {α : Type} (l m : List (Action α)) :
    workerQueueSent (l ++ m) = workerQueueSent l ++ workerQueueSent m := by
  simp [workerQueueSent, List.filterMap_append]

@[simp] theorem terminations_append {α : Type} (l m : List (Action α)) :
    terminations (l ++ m) = terminations l + terminations m := by
  simp [terminations, List.countP_append]

@[simp] theorem received_cons {α : Type} (a : Action α) (l : List (Action α)) :
    received (a :: l) = (match a with | .recv t => [t] | _ => []) ++ received l := by
  cases a <;> rfl

@[simp] theorem delivered_cons {α : Type} (a : Action α) (l : List (Action α)) :
    delivered (a :: l) =
      (match a with
        | .handoff t => [t]
        | .spawn t => [t]
        | .dequeue t => [t]
        | _ => []) ++ delivered l := by
  cases a <;> rfl

@[simp] theorem enqueued_cons {α : Type} (a : Action α) (l : List (Action α)) :
    enqueued (a :: l) = (match a with | .enqueue t => [t] | _ => []) ++ enqueued l := by
  cases a <;> rfl

@[simp] theorem dequeued_cons {α : Type} (a : Action α) (l : List (Action α)) :
    dequeued (a :: l) = (match a with | .dequeue t => [t] | _ => []) ++ dequeued l := by
  cases a <;> rfl

@[simp] theorem workerQueueSent_cons {α : Type} (a : Action α) (l : List (Action α)) :
    workerQueueSent (a :: l) =
      (match a with
        | .handoff t => [t]
        | .dequeue t => [t]
        | .terminate => [none]
        | _ => []) ++ workerQueueSent l := by
  cases a <;> rfl

@[simp] theorem terminations_cons {α : Type} (a : Action α) (l : List (Action α)) :
    terminations (a :: l) =
      (match a with | .terminate => 1 | _ => 0) + terminations l := by
  cases a <;> simp [terminations, List.countP_cons]; omega

@[simp] theorem workerQueueSent_map_dequeue {α : Type} (q : List (Task α)) :
    workerQueueSent (q.map Action.dequeue) = q := by
  induction q with
  | nil => rfl
  | cons t q ih => simp [ih]

@[simp] theorem delivered_map_dequeue {α : Type} (q : List (Task α)) :
    delivered (q.map Action.dequeue) = q := by
  induction q with
  | nil => rfl
  | cons t q ih => simp [ih]

@[simp] theorem terminations_map_dequeue {α : Type} (q : List (Task α)) :
    terminations (q.map Action.dequeue) = 0 := by
  induction q with
  | nil => rfl
  | cons t q ih => simp [ih]

@[simp] theorem workerQueueSent_replicate_terminate {α : Type} (n : Nat) :
    workerQueueSent (List.replicate n (Action.terminate : Action α)) =
      List.replicate n none := by
  induction n with
  | zero => rfl
  | succ n ih => simp [List.replicate_succ, ih]

@[simp] theorem delivered_replicate_terminate {α : Type} (n : Nat) :
    delivered (List.replicate n (Action.terminate : Action α)) = [] := by
  induction n with
  | zero => rfl
  | succ n ih => simp [List.replicate_succ, ih]

@[simp] theorem terminations_replicate_terminate {α : Type} (n : Nat) :
    terminations (List.replicate n (Action.terminate : Action α)) = n := by
  induction n with
  | zero => rfl
  | succ n ih => simp [List.replicate_succ, ih]; omega

theorem Step.maxWorker_eq {α : Type} {s s1 : Dispatcher α} {e : Event α}
    (h : Step s e s1) : s1.maxWorker = s.maxWorker := by
  cases h <;> rfl

theorem capInv_step {α : Type} {s s1 : Dispatcher α} {e : Event α}
    (h : Step s e s1) (hi : CapInv s) : CapInv s1 := by
  obtain ⟨h0, h1, h2⟩ := hi
  cases h <;> simp_all [CapInv] <;> omega

theorem logInv_step {α : Type} {s s1 : Dispatcher α} {e : Event α}
    (h : Step s e s1) (hi : LogInv s) : LogInv s1 := by
  obtain ⟨h0, h1⟩ := hi
  cases h <;> simp_all [LogInv]

theorem maxWorker_NewWorkerPool {α : Type} (max : Int) :
    1 ≤ (NewWorkerPool max : Pool α).maxWorker := by
  unfold NewWorkerPool
  by_cases h : max < 1 <;> simp [h]; omega

theorem capInv_start {α : Type} (max : Int) :
    CapInv (start (NewWorkerPool max : Pool α)) := by
  have h := maxWorker_NewWorkerPool (α := α) max
  refine ⟨le_refl 0, ?_, ?_⟩
  · show (0 : Int) ≤ (NewWorkerPool max : Pool α).maxWorker
    omega
  · intro hq
    exact absurd rfl hq

theorem logInv_start {α : Type} (max : Int) :
    LogInv (start (NewWorkerPool max : Pool α)) := by
  constructor <;> rfl

theorem run_maxWorker {α : Type} (es : List (Event α)) (s : Dispatcher α) :
    (run s es).maxWorker = s.maxWorker :=
  run_induction (P := fun x => x.maxWorker = s.maxWorker)
    (fun _ _ _ h hp => (Step.maxWorker_eq h).trans hp) es s rfl

theorem capInv_run {α : Type} (max : Int) (es : List (Event α)) :
    CapInv (run (start (NewWorkerPool max : Pool α)) es) :=
  run_induction (fun _ _ _ h hp => capInv_step h hp) es _ (capInv_start max)

theorem logInv_run {α : Type} (max : Int) (es : List (Event α)) :
    LogInv (run (start (NewWorkerPool max : Pool α)) es) :=
  run_induction (fun _ _ _ h hp => logInv_step h hp) es _ (logInv_start max)

/-! ### The drain phase -/

/-- In the drain phase, as many worker receptions as there are waiting tasks
empty the waiting queue, head first. -/
theorem run_drainQueue {α : Type} (q : List (Task α)) :
    ∀ s : Dispatcher α, s.phase = .draining → s.waitingQueue = q →
      run s (List.replicate q.length .ready) =
        { s with waitingQueue := [], log := s.log ++ q.map .dequeue } := by
  induction q with
  | nil =>
    intro s _ hq
    obtain ⟨mw, q, wl, idle, ph, log⟩ := s
    simp_all [run]
  | cons head rest ih =>
    intro s hp hq
    have hs := Step.to_step (Step.drainTask s head rest hp hq)
    simp only [List.length_cons, List.replicate_succ, run, hs, Option.getD_some]
    rw [ih { s with waitingQueue := rest, log := s.log ++ [.dequeue head] } hp rfl]
    simp

/-- In the drain phase with an empty waiting queue, as many worker receptions
as there are workers bring the worker count to 0, one nil each. -/
theorem run_drainWorkers {α : Type} (n : Nat) :
    ∀ s : Dispatcher α, s.phase = .draining → s.waitingQueue = [] → s.workerLen = n →
      run s (List.replicate n .ready) =
        { s with workerLen := 0, log := s.log ++ List.replicate n .terminate } := by
  induction n with
  | zero =>
    intro s _ _ hn
    obtain ⟨mw, q, wl, idle, ph, log⟩ := s
    simp_all [run]
  | succ n ih =>
    intro s hp hq hn
    have hpos : 0 < s.workerLen := by omega
    have hs := Step.to_step (Step.drainWorker s hp hq hpos)
    simp only [List.replicate_succ, run, hs, Option.getD_some]
    rw [ih { s with workerLen := s.workerLen - 1, log := s.log ++ [.terminate] } hp hq
      (by show s.workerLen - 1 = (n : Int); omega)]
    simp [List.replicate_succ]

/-- The two loops after the dispatcher loop, run to completion. -/
theorem run_drain {α : Type} (s : Dispatcher α) (hp : s.phase = .draining)
    (hw : 0 ≤ s.workerLen) :
    run s (List.replicate (s.waitingQueue.length + s.workerLen.toNat) .ready) =
      { s with waitingQueue := [], workerLen := 0
               log := s.log ++ (s.waitingQueue.map .dequeue ++
                 List.replicate s.workerLen.toNat .terminate) } := by
  rw [List.replicate_add, run_append, run_drainQueue _ s hp rfl,
    run_drainWorkers s.workerLen.toNat
      { s with waitingQueue := [], log := s.log ++ s.waitingQueue.map .dequeue } hp rfl
      (by show s.workerLen = (s.workerLen.toNat : Int); omega)]
  simp

/-- After the two loops `wg.Wait()` can return, and `start` with it. -/
theorem run_drain_joined {α : Type} (s : Dispatcher α) (hp : s.phase = .draining)
    (hw : 0 ≤ s.workerLen) :
    run s (List.replicate (s.waitingQueue.length + s.workerLen.toNat) .ready ++ [.joined]) =
      { s with waitingQueue := [], workerLen := 0, phase := .stopped
               log := s.log ++ (s.waitingQueue.map .dequeue ++
                 List.replicate s.workerLen.toNat .terminate) } := by
  rw [run_append, run_drain s hp hw]
  have hs := Step.to_step (Step.joined
    { s with waitingQueue := [], workerLen := 0
             log := s.log ++ (s.waitingQueue.map .dequeue ++
               List.replicate s.workerLen.toNat .terminate) } hp rfl (by simp))
  simp only [run, hs, Option.getD_some]

theorem stopInv_step {α : Type} {s s1 : Dispatcher α} {e : Event α}
    (h : Step s e s1) (_ : StopInv s) : StopInv s1 := by
  cases h <;> simp_all [StopInv]

theorem stopInv_run {α : Type} (max : Int) (es : List (Event α)) :
    StopInv (run (start (NewWorkerPool max : Pool α)) es) :=
  run_induction (fun _ _ _ h hp => stopInv_step h hp) es _ (by simp [StopInv, start])

/-- From a state with a non-negative worker count `start` can return: the
task queue is closed, the workers receive what the drain sends, and exit. -/
theorem exists_run_stopped {α : Type} (s : Dispatcher α) (hw : 0 ≤ s.workerLen) :
    ∃ fs, (run s fs).phase = .stopped := by
  cases hp : s.phase with
  | stopped => exact ⟨[], hp⟩
  | draining =>
    refine ⟨List.replicate (s.waitingQueue.length + s.workerLen.toNat) .ready ++ [.joined], ?_⟩
    rw [run_drain_joined s hp hw]
  | running =>
    have hs : step s .closed = some { s with phase := .draining } := by
      by_cases hq : s.waitingQueue = []
      · exact Step.to_step (Step.closed s hp hq)
      · exact Step.to_step (Step.waitClosed s hp hq)
    refine ⟨.closed :: (List.replicate (s.waitingQueue.length + s.workerLen.toNat) .ready ++
      [.joined]), ?_⟩
    simp only [run, hs, Option.getD_some]
    rw [run_drain_joined { s with phase := .draining } rfl hw]

/-! ### Runs without timer ticks -/

/-- In the loop a task that arrives is always received. -/
theorem exists_step_task {α : Type} (s : Dispatcher α) (t : Task α) (b : Bool)
    (hp : s.phase = .running) : ∃ s1, step s (.task t b) = some s1 := by
  cases hq : s.waitingQueue with
  | cons head rest => exact ⟨_, Step.to_step (Step.waitTask s head rest t b hp hq)⟩
  | nil =>
    cases b with
    | true => exact ⟨_, Step.to_step (Step.handoff s t hp hq)⟩
    | false =>
      by_cases hlt : s.workerLen < s.maxWorker
      · exact ⟨_, Step.to_step (Step.spawn s t hp hq hlt)⟩
      · exact ⟨_, Step.to_step (Step.enqueue s t hp hq hlt)⟩

/-- A run of task arrivals and worker receptions only: the dispatcher stays in
the loop, receives every task and sends no termination signal. -/
theorem run_arrivals {α : Type} (es : List (Event α))
    (hes : ∀ e ∈ es, e = .ready ∨ ∃ t b, e = .task t b) :
    ∀ s : Dispatcher α, s.phase = .running →
      (run s es).phase = .running ∧
        terminations (run s es).log = terminations s.log ∧
        received (run s es).log = received s.log ++ arrivals es := by
  induction es with
  | nil => intro s hp; simp [run, arrivals, hp]
  | cons e es ih =>
    intro s hp
    have hes1 : ∀ x ∈ es, x = .ready ∨ ∃ t b, x = .task t b :=
      fun x hx => hes x (List.mem_cons_of_mem _ hx)
    rcases hes e (List.mem_cons_self _ _) with he | ⟨t, b, he⟩
    · subst he
      cases hs : step s .ready with
      | none => simpa [run, hs, arrivals] using ih hes1 s hp
      | some s1 =>
        have h1 : s1.phase = .running ∧ terminations s1.log = terminations s.log ∧
            received s1.log = received s.log := by
          cases Step.of_step hs <;> simp_all
        obtain ⟨k1, k2, k3⟩ := ih hes1 s1 h1.1
        simp only [run, hs, Option.getD_some]
        refine ⟨k1, by rw [k2, h1.2.1], ?_⟩
        rw [k3, h1.2.2]
        simp [arrivals]
    · subst he
      obtain ⟨s1, hs⟩ := exists_step_task s t b hp
      have h1 : s1.phase = .running ∧ terminations s1.log = terminations s.log ∧
          received s1.log = received s.log ++ [t] := by
        cases Step.of_step hs <;> simp_all
      obtain ⟨k1, k2, k3⟩ := ih hes1 s1 h1.1
      simp only [run, hs, Option.getD_some]
      refine ⟨k1, by rw [k2, h1.2.1], ?_⟩
      rw [k3, h1.2.2]
      simp [arrivals]

/-- In the loop the closing of the task queue is always observed. -/
theorem step_closed {α : Type} (s : Dispatcher α) (hp : s.phase = .running) :
    step s .closed = some { s with phase := .draining } := by
  by_cases hq : s.waitingQueue = []
  · exact Step.to_step (Step.closed s hp hq)
  · exact Step.to_step (Step.waitClosed s hp hq)

/-! ## The dispatcher: capacity, saturation, order, conservation -/

/-- C1 (capacity invariant): in every state the dispatcher reaches from a pool
built by `NewWorkerPool`, whatever the sequence of task arrivals, ticks, stop
events, worker receptions and worker readiness, and in the drain phase too, the
worker count is at least 0 and at most `maxWorker`, and `maxWorker` is still the
value the constructor stored. -/
theorem capacity_invariant {α : Type} (max : Int) (es : List (Event α)) :
    0 ≤ (run (start (NewWorkerPool max : Pool α)) es).workerLen ∧
      (run (start (NewWorkerPool max : Pool α)) es).workerLen ≤
        (run (start (NewWorkerPool max : Pool α)) es).maxWorker ∧
      (run (start (NewWorkerPool max : Pool α)) es).maxWorker =
        (NewWorkerPool max : Pool α).maxWorker := by
  obtain ⟨h0, h1, -⟩ := capInv_run (α := α) max es
  exact ⟨h0, h1, run_maxWorker es _⟩

/-- C2 (saturation implies queueing): in every reachable state of the dispatcher
(loop, `processWaiting`, drain) a non-empty waiting queue means that the worker
count equals `maxWorker`; and from any state with a non-empty waiting queue no
transition is a tick, none changes the worker count and none sends a termination
signal, so the drain empties the queue before it decrements the worker count. -/
theorem saturation_implies_queueing {α : Type} (max : Int) (es : List (Event α)) :
    ((run (start (NewWorkerPool max : Pool α)) es).waitingQueue ≠ [] →
        (run (start (NewWorkerPool max : Pool α)) es).workerLen =
          (run (start (NewWorkerPool max : Pool α)) es).maxWorker) ∧
      (∀ (s s1 : Dispatcher α) (e : Event α), s.waitingQueue ≠ [] → step s e = some s1 →
        (∀ b, e ≠ .tick b) ∧ s1.workerLen = s.workerLen ∧
          terminations s1.log = terminations s.log) ∧
      (∀ (s s1 : Dispatcher α) (e : Event α), s.phase = .draining → step s e = some s1 →
        s1.workerLen ≠ s.workerLen → s.waitingQueue = [] ∧ s1.waitingQueue = []) := by
  refine ⟨(capInv_run (α := α) max es).2.2, ?_, ?_⟩
  · intro s s1 e hq h
    cases Step.of_step h <;> simp_all
  · intro s s1 e hp h hne
    cases Step.of_step h <;> simp_all

/-- A saturated pool of one worker with one task waiting. -/
theorem saturation_implies_queueing_witness :
    (run (start (NewWorkerPool 1 : Pool Nat))
        [.task (some 1) false, .task (some 2) false]).waitingQueue = [some 2] ∧
      (run (start (NewWorkerPool 1 : Pool Nat))
        [.task (some 1) false, .task (some 2) false]).workerLen =
      (run (start (NewWorkerPool 1 : Pool Nat))
        [.task (some 1) false, .task (some 2) false]).maxWorker :=
  ⟨by decide,
    (saturation_implies_queueing 1 [.task (some 1) false, .task (some 2) false]).1
      (by decide)⟩

/-- C3 (FIFO of the waiting queue): along every event trace the tasks removed
from the waiting queue and sent to workers, followed by the tasks still waiting,
are exactly the tasks appended to the waiting queue, in the same order, so the
removed ones are an initial segment of the appended ones; and in the loop a task
that arrives while the waiting queue is non-empty is appended to its tail,
whether or not a worker is ready: the only actions are the reception and the
append, and the worker count does not change. -/
theorem waiting_queue_fifo {α : Type} (max : Int) (es : List (Event α)) :
    enqueued (run (start (NewWorkerPool max : Pool α)) es).log =
        dequeued (run (start (NewWorkerPool max : Pool α)) es).log ++
          (run (start (NewWorkerPool max : Pool α)) es).waitingQueue ∧
      dequeued (run (start (NewWorkerPool max : Pool α)) es).log <+:
        enqueued (run (start (NewWorkerPool max : Pool α)) es).log ∧
      (∀ (s : Dispatcher α) (t : Task α) (b : Bool),
        s.phase = .running → s.waitingQueue ≠ [] →
        step s (.task t b) =
          some { s with waitingQueue := s.waitingQueue ++ [t]
                        log := s.log ++ [.recv t, .enqueue t] }) := by
  have h := (logInv_run (α := α) max es).2
  refine ⟨h, ⟨_, h.symm⟩, ?_⟩
  intro s t b hp hq
  obtain ⟨head, rest, hc⟩ := List.exists_cons_of_ne_nil hq
  exact Step.to_step (Step.waitTask s head rest t b hp hc)

/-- A task that arrives at a saturated pool of one worker while another task
waits and a worker is ready to receive: it is appended behind the waiting one. -/
theorem waiting_queue_fifo_witness :
    (run (start (NewWorkerPool 1 : Pool Nat))
        [.task (some 1) false, .task (some 2) false]).waitingQueue = [some 2] ∧
      (run (start (NewWorkerPool 1 : Pool Nat))
        [.task (some 1) false, .task (some 2) false, .task (some 3) true]).waitingQueue =
        [some 2, some 3] ∧
      step (run (start (NewWorkerPool 1 : Pool Nat))
          [.task (some 1) false, .task (some 2) false]) (.task (some 3) true) =
        some { run (start (NewWorkerPool 1 : Pool Nat))
            [.task (some 1) false, .task (some 2) false] with
          waitingQueue := [some 2] ++ [some 3]
          log := [.recv (some 1), .spawn (some 1), .recv (some 2), .enqueue (some 2)] ++
            [.recv (some 3), .enqueue (some 3)] } :=
  ⟨by decide, by decide,
    (waiting_queue_fifo 1 []).2.2
      (run (start (NewWorkerPool 1 : Pool Nat)) [.task (some 1) false, .task (some 2) false])
      (some 3) true (by decide) (by decide)⟩

/-- C4 (no accepted task is dropped or duplicated): a transition that receives a
task performs, after the reception, exactly one action, which is a handoff to a
ready worker, a spawn of a worker bound to the task, or an append to the waiting
queue, and the waiting queue changes in the last case only; along every event
trace the received tasks are the delivered tasks followed by the waiting ones
(as sequences, hence as multisets); once `start` has returned the delivered
tasks are exactly the received ones; and `start` can return from every
reachable state. -/
theorem no_task_dropped_or_duplicated {α : Type} (max : Int) (es : List (Event α)) :
    (∀ (s s1 : Dispatcher α) (t : Task α) (b : Bool), step s (.task t b) = some s1 →
        ∃ a, s1.log = s.log ++ [.recv t, a] ∧
          ((a = .handoff t ∧ s1.waitingQueue = s.waitingQueue) ∨
            (a = .spawn t ∧ s1.waitingQueue = s.waitingQueue) ∨
            (a = .enqueue t ∧ s1.waitingQueue = s.waitingQueue ++ [t]))) ∧
      received (run (start (NewWorkerPool max : Pool α)) es).log =
        delivered (run (start (NewWorkerPool max : Pool α)) es).log ++
          (run (start (NewWorkerPool max : Pool α)) es).waitingQueue ∧
      ((received (run (start (NewWorkerPool max : Pool α)) es).log : Multiset (Task α)) =
        (delivered (run (start (NewWorkerPool max : Pool α)) es).log : Multiset (Task α)) +
          ((run (start (NewWorkerPool max : Pool α)) es).waitingQueue : Multiset (Task α))) ∧
      ((run (start (NewWorkerPool max : Pool α)) es).phase = .stopped →
        (run (start (NewWorkerPool max : Pool α)) es).waitingQueue = [] ∧
          delivered (run (start (NewWorkerPool max : Pool α)) es).log =
            received (run (start (NewWorkerPool max : Pool α)) es).log) ∧
      (∃ fs, (run (start (NewWorkerPool max : Pool α)) (es ++ fs)).phase = .stopped) := by
  have hl := (logInv_run (α := α) max es).1
  refine ⟨?_, hl, ?_, ?_, ?_⟩
  · intro s s1 t b h
    cases Step.of_step h <;> simp_all
  · rw [hl]
    rfl
  · intro hp
    have hq := stopInv_run (α := α) max es hp
    refine ⟨hq, ?_⟩
    rw [hl, hq, List.append_nil]
  · obtain ⟨fs, hfs⟩ := exists_run_stopped _ (capInv_run (α := α) max es).1
    exact ⟨fs, by rw [run_append]; exact hfs⟩

/-- Two tasks on a pool of one worker, shutdown, drain: `start` has returned
and both tasks were delivered, in the order received. -/
theorem no_task_dropped_or_duplicated_witness :
    (run (start (NewWorkerPool 1 : Pool Nat))
        [.task (some 1) false, .task (some 2) false, .closed, .ready, .ready, .joined]).phase =
        .stopped ∧
      received (run (start (NewWorkerPool 1 : Pool Nat))
        [.task (some 1) false, .task (some 2) false, .closed, .ready, .ready, .joined]).log =
        [some 1, some 2] ∧
      delivered (run (start (NewWorkerPool 1 : Pool Nat))
        [.task (some 1) false, .task (some 2) false, .closed, .ready, .ready, .joined]).log =
      received (run (start (NewWorkerPool 1 : Pool Nat))
        [.task (some 1) false, .task (some 2) false, .closed, .ready, .ready, .joined]).log :=
  ⟨by decide, by decide,
    ((no_task_dropped_or_duplicated 1
      [.task (some 1) false, .task (some 2) false, .closed, .ready, .ready,
        .joined]).2.2.2.1 (by decide)).2⟩

/-! ## The drain -/

/-- C5 (drain on shutdown): when the dispatcher has left its loop with waiting
queue `q` and worker count `n`, then `q.length + n` receptions by workers
complete the two loops of the drain: the actions are the handoff of the elements
of `q` in order followed by exactly `n` termination signals, so `workerQueue`
carries `q` and then `n` nils, the waiting queue ends empty and the worker count
0, no further send is pending and `start` returns.  If the loop was left on
`Shutdown` after a run of task arrivals and worker receptions without a timer
tick (for instance five tasks on a pool with `maxWorker = 1`), the tasks
delivered before the first termination signal are all the submitted tasks, once
each and in submission order. -/
theorem drain_on_shutdown {α : Type} (s : Dispatcher α)
    (hp : s.phase = .draining) (hw : 0 ≤ s.workerLen) :
    run s (List.replicate (s.waitingQueue.length + s.workerLen.toNat) .ready) =
        { s with waitingQueue := [], workerLen := 0
                 log := s.log ++ (s.waitingQueue.map .dequeue ++
                   List.replicate s.workerLen.toNat .terminate) } ∧
      workerQueueSent
          (run s (List.replicate (s.waitingQueue.length + s.workerLen.toNat) .ready)).log =
        workerQueueSent s.log ++ (s.waitingQueue ++ List.replicate s.workerLen.toNat none) ∧
      step (run s (List.replicate (s.waitingQueue.length + s.workerLen.toNat) .ready)) .ready =
        none ∧
      (run s (List.replicate (s.waitingQueue.length + s.workerLen.toNat) .ready ++
        [.joined])).phase = .stopped ∧
      (∀ (max : Int) (es : List (Event α)),
        (∀ e ∈ es, e = .ready ∨ ∃ t b, e = .task t b) →
        s = run (start (NewWorkerPool max)) (es ++ [.closed]) →
        delivered (s.log ++ s.waitingQueue.map .dequeue) = arrivals es ∧
          terminations (s.log ++ s.waitingQueue.map .dequeue) = 0) := by
  refine ⟨run_drain s hp hw, ?_, ?_, ?_, ?_⟩
  · rw [run_drain s hp hw]
    simp
  · rw [run_drain s hp hw]
    simp [step, hp]
  · rw [run_drain_joined s hp hw]
  · intro max es hes hs
    obtain ⟨k1, k2, k3⟩ := run_arrivals es hes (start (NewWorkerPool max : Pool α)) rfl
    have hl := (logInv_run (α := α) max es).1
    rw [run_append] at hs
    simp only [run, step_closed _ k1, Option.getD_some] at hs
    subst hs
    have hr : received (run (start (NewWorkerPool max : Pool α)) es).log = arrivals es := by
      simpa [start] using k3
    have ht : terminations (run (start (NewWorkerPool max : Pool α)) es).log = 0 := by
      simpa [start] using k2
    simp only [delivered_append, delivered_map_dequeue, terminations_append,
      terminations_map_dequeue, ht]
    exact ⟨by rw [← hl, hr], trivial⟩

/-- The drain on the scenario of five tasks and one worker. -/
theorem drain_on_shutdown_witness :
    (drainScenario.phase = .draining ∧ 0 ≤ drainScenario.workerLen) ∧
      drainScenario.waitingQueue = [some 2, some 3, some 4, some 5] ∧
      drainScenario.workerLen = 1 ∧
      workerQueueSent (run drainScenario (List.replicate (4 + 1) .ready)).log =
        [some 2, some 3, some 4, some 5, none] ∧
      (delivered (drainScenario.log ++ drainScenario.waitingQueue.map .dequeue) =
          [some 1, some 2, some 3, some 4, some 5] ∧
        terminations (drainScenario.log ++ drainScenario.waitingQueue.map .dequeue) = 0) :=
  ⟨⟨by decide, by decide⟩, by decide, by decide,
    (drain_on_shutdown drainScenario (by decide) (by decide)).2.1,
    (drain_on_shutdown drainScenario (by decide) (by decide)).2.2.2.2 1
      [.task (some 1) false, .task (some 2) false, .task (some 3) false,
        .task (some 4) false, .task (some 5) false]
      (by simp) rfl⟩

/-! ## The submission gateway -/

theorem submit_none {α : Type} (p : Pool α) : Submit p none = some p := by
  simp [Submit]

theorem submit_of_shutdown {α : Type} (p : Pool α) (t : Task α)
    (h : p.shutdown = true) : Submit p t = some p := by
  simp [Submit, h]

theorem shutdown_of_shutdown {α : Type} (p : Pool α)
    (h : p.shutdown = true) : Shutdown p = some p := by
  simp [Shutdown, h]

theorem shutdown_of_open {α : Type} (p : Pool α) (h : p.shutdown = false)
    (ht : p.taskQueue.closed = false) (hs : p.stop.closed = false) :
    Shutdown p =
      some { p with shutdown := true
                    taskQueue := { p.taskQueue with closed := true }
                    stop := { p.stop with closed := true } } := by
  simp [Shutdown, Chan.close, h, ht, hs]

theorem shutdown_flag {α : Type} {p p1 : Pool α} (h : Shutdown p = some p1) :
    p1.shutdown = true := by
  by_cases hs : p.shutdown = true
  · rw [shutdown_of_shutdown p hs] at h
    cases h
    exact hs
  · obtain ⟨mw, tq, wq, q, st, sd⟩ := p
    obtain ⟨tc, ts⟩ := tq
    obtain ⟨sc, ss⟩ := st
    cases tc <;> cases sc <;> simp_all [Shutdown, Chan.close]
    subst h
    rfl

theorem gatewayInv_new {α : Type} (max : Int) : GatewayInv (NewWorkerPool max : Pool α) := by
  simp [GatewayInv, NewWorkerPool, Chan.make]

theorem gatewayInv_apply {α : Type} (c : Call α) (p : Pool α) (h : GatewayInv p) :
    ∃ p1, c.apply p = some p1 ∧ GatewayInv p1 := by
  obtain ⟨h1, h2, h3⟩ := h
  cases c with
  | submit t =>
    cases t with
    | none => exact ⟨p, submit_none p, h1, h2, h3⟩
    | some a =>
      by_cases hs : p.shutdown = true
      · exact ⟨p, submit_of_shutdown p _ hs, h1, h2, h3⟩
      · have hc : p.taskQueue.closed = false := by
          rw [h1]; simpa using hs
        refine ⟨{ p with taskQueue := { p.taskQueue with sent := p.taskQueue.sent ++ [some a] } },
          ?_, ?_⟩
        · simp [Call.apply, Submit, Chan.send, hs, hc]
        · refine ⟨h1, h2, ?_⟩
          intro t ht
          rcases List.mem_append.mp ht with ht | ht
          · exact h3 t ht
          · simp at ht
            simp [ht]
  | shutdown =>
    by_cases hs : p.shutdown = true
    · exact ⟨p, shutdown_of_shutdown p hs, h1, h2, h3⟩
    · have hf : p.shutdown = false := by simpa using hs
      refine ⟨_, shutdown_of_open p hf (by rw [h1, hf]) (by rw [h2, hf]), rfl, rfl, h3⟩

theorem gatewayInv_runCalls {α : Type} (cs : List (Call α)) :
    ∀ p : Pool α, GatewayInv p → ∃ p1, runCalls p cs = some p1 ∧ GatewayInv p1 := by
  induction cs with
  | nil => intro p h; exact ⟨p, rfl, h⟩
  | cons c cs ih =>
    intro p h
    obtain ⟨p1, hc, h1⟩ := gatewayInv_apply c p h
    obtain ⟨p2, hr, h2⟩ := ih p1 h1
    exact ⟨p2, by simp [runCalls, hc, hr], h2⟩

theorem runCalls_of_shutdown {α : Type} (cs : List (Call α)) (p : Pool α)
    (h : p.shutdown = true) : runCalls p cs = some p := by
  induction cs with
  | nil => rfl
  | cons c cs ih =>
    cases c with
    | submit t => simp [runCalls, Call.apply, submit_of_shutdown p t h, ih]
    | shutdown => simp [runCalls, Call.apply, shutdown_of_shutdown p h, ih]

/-- C6 (post-shutdown rejection): on a pool whose shutdown flag is set, and so
on every pool returned by `Shutdown`, `Submit` of any task returns the pool as
it is, with nothing sent on `taskQueue`, and so does every further sequence of
gateway calls; and from a new pool no sequence of `Submit` and `Shutdown` calls,
taken in the order in which they hold the lock, panics: `taskQueue` is closed
exactly when the flag is set, so the send of `Submit`, which is guarded by the
flag, is never on a closed channel. -/
theorem post_shutdown_rejection {α : Type} :
    (∀ (p : Pool α) (t : Task α), p.shutdown = true → Submit p t = some p) ∧
      (∀ (p p1 : Pool α) (t : Task α), Shutdown p = some p1 → Submit p1 t = some p1) ∧
      (∀ (p : Pool α) (cs : List (Call α)), p.shutdown = true → runCalls p cs = some p) ∧
      (∀ (max : Int) (cs : List (Call α)),
        ∃ p : Pool α, runCalls (NewWorkerPool max) cs = some p ∧
          p.taskQueue.closed = p.shutdown ∧ p.stop.closed = p.shutdown ∧
          ∀ t : Task α, Submit p t ≠ none) := by
  refine ⟨submit_of_shutdown, ?_, fun p cs h => runCalls_of_shutdown cs p h, ?_⟩
  · intro p p1 t h
    exact submit_of_shutdown p1 t (shutdown_flag h)
  · intro max cs
    obtain ⟨p, hr, hi⟩ := gatewayInv_runCalls cs (NewWorkerPool max : Pool α) (gatewayInv_new max)
    refine ⟨p, hr, hi.1, hi.2.1, ?_⟩
    intro t
    obtain ⟨p1, h1, -⟩ := gatewayInv_apply (.submit t) p hi
    simp only [Call.apply] at h1
    simp [h1]

/-- A trace of gateway calls on which C6 is exercised: a rejected submission
after `Shutdown` leaves the pool as the shutdown left it. -/
theorem post_shutdown_rejection_witness :
    Shutdown (NewWorkerPool 2 : Pool Nat) =
        some { (NewWorkerPool 2 : Pool Nat) with
          shutdown := true
          taskQueue := { closed := true, sent := [] }
          stop := { closed := true, sent := [] } } ∧
      Submit { (NewWorkerPool 2 : Pool Nat) with
          shutdown := true
          taskQueue := { closed := true, sent := [] }
          stop := { closed := true, sent := [] } } (some 7) =
        some { (NewWorkerPool 2 : Pool Nat) with
          shutdown := true
          taskQueue := { closed := true, sent := [] }
          stop := { closed := true, sent := [] } } :=
  ⟨by decide, post_shutdown_rejection.2.1 (NewWorkerPool 2) _ (some 7) (by decide)⟩

/-- The tasks a dispatcher receives in one transition are the tasks that
arrive with the event. -/
theorem Step.received_eq {α : Type} {s s1 : Dispatcher α} {e : Event α}
    (h : Step s e s1) : received s1.log = received s.log ++ arrivals [e] := by
  cases h <;> simp [arrivals]

/-- Every task received along a run arrived with one of its events. -/
theorem received_run {α : Type} (es : List (Event α)) :
    ∀ s : Dispatcher α, ∀ t ∈ received (run s es).log,
      t ∈ received s.log ∨ t ∈ arrivals es := by
  induction es with
  | nil => intro s t ht; exact Or.inl ht
  | cons e es ih =>
    intro s t ht
    cases hs : step s e with
    | none =>
      rw [run, hs] at ht
      rcases ih s t ht with h | h
      · exact Or.inl h
      · exact Or.inr (by
          have : arrivals (e :: es) = arrivals [e] ++ arrivals es := by
            simp [arrivals, List.filterMap_cons]
            cases e <;> simp
          rw [this]; exact List.mem_append_right _ h)
    | some s1 =>
      rw [run, hs] at ht
      have hsplit : arrivals (e :: es) = arrivals [e] ++ arrivals es := by
        simp [arrivals, List.filterMap_cons]
        cases e <;> simp
      rcases ih s1 t ht with h | h
      · rw [Step.received_eq (Step.of_step hs)] at h
        rcases List.mem_append.mp h with h | h
        · exact Or.inl h
        · exact Or.inr (by rw [hsplit]; exact List.mem_append_left _ h)
      · exact Or.inr (by rw [hsplit]; exact List.mem_append_right _ h)

/-- When every delivered task is non-nil, the nils on `workerQueue` are the
termination signals. -/
theorem countP_isNone_workerQueueSent {α : Type} (log : List (Action α))
    (h : ∀ t ∈ delivered log, t ≠ none) :
    (workerQueueSent log).countP Option.isNone = terminations log := by
  induction log with
  | nil => rfl
  | cons a log ih =>
    have ih1 := ih (fun t ht => h t (by
      rw [delivered_cons]; exact List.mem_append_right _ ht))
    cases a with
    | handoff t =>
      have ht : t ≠ none := h t (by simp)
      cases t with
      | none => exact absurd rfl ht
      | some a => simp [ih1]
    | dequeue t =>
      have ht : t ≠ none := h t (by simp)
      cases t with
      | none => exact absurd rfl ht
      | some a => simp [ih1]
    | terminate => simp [ih1]; omega
    | recv t => simp [ih1]
    | spawn t => simp [ih1]
    | enqueue t => simp [ih1]

theorem mem_delivered {α : Type} {log : List (Action α)} {t : Task α}
    (h : Action.handoff t ∈ log ∨ Action.spawn t ∈ log ∨ Action.dequeue t ∈ log) :
    t ∈ delivered log := by
  unfold delivered
  rw [List.mem_filterMap]
  rcases h with h | h | h
  · exact ⟨_, h, rfl⟩
  · exact ⟨_, h, rfl⟩
  · exact ⟨_, h, rfl⟩

/-- C7 (nil task safety): `Submit(nil)` returns every pool as it is, with
nothing sent; so no sequence of gateway calls on a new pool puts a nil on
`taskQueue`; and when the tasks that arrive at the dispatcher are among the
values the gateway sent, then in every reachable state every waiting task,
every task bound to a spawned worker and every task sent to a worker is
non-nil, and the nils sent on `workerQueue` are exactly the termination
signals. -/
theorem nil_task_safety {α : Type} :
    (∀ p : Pool α, Submit p none = some p) ∧
      (∀ (max : Int) (cs : List (Call α)) (p : Pool α),
        runCalls (NewWorkerPool max) cs = some p → ∀ t ∈ p.taskQueue.sent, t ≠ none) ∧
      (∀ (max : Int) (cs : List (Call α)) (p : Pool α) (es : List (Event α)),
        runCalls (NewWorkerPool max) cs = some p →
        (∀ t ∈ arrivals es, t ∈ p.taskQueue.sent) →
        (∀ t ∈ (run (start (NewWorkerPool max : Pool α)) es).waitingQueue, t ≠ none) ∧
          (∀ t, Action.spawn t ∈ (run (start (NewWorkerPool max : Pool α)) es).log →
            t ≠ none) ∧
          (∀ t, Action.handoff t ∈ (run (start (NewWorkerPool max : Pool α)) es).log ∨
              Action.dequeue t ∈ (run (start (NewWorkerPool max : Pool α)) es).log →
            t ≠ none) ∧
          (workerQueueSent (run (start (NewWorkerPool max : Pool α)) es).log).countP
              Option.isNone =
            terminations (run (start (NewWorkerPool max : Pool α)) es).log) := by
  have hsent : ∀ (max : Int) (cs : List (Call α)) (p : Pool α),
      runCalls (NewWorkerPool max) cs = some p → ∀ t ∈ p.taskQueue.sent, t ≠ none := by
    intro max cs p hr
    obtain ⟨p1, h1, hi⟩ := gatewayInv_runCalls cs (NewWorkerPool max : Pool α) (gatewayInv_new max)
    rw [hr] at h1
    cases h1
    exact hi.2.2
  refine ⟨submit_none, hsent, ?_⟩
  intro max cs p es hr harr
  have hl := (logInv_run (α := α) max es).1
  have hrec : ∀ t ∈ received (run (start (NewWorkerPool max : Pool α)) es).log, t ≠ none := by
    intro t ht
    rcases received_run es _ t ht with h | h
    · simp [start] at h
    · exact hsent max cs p hr t (harr t h)
  have hdel : ∀ t ∈ delivered (run (start (NewWorkerPool max : Pool α)) es).log, t ≠ none :=
    fun t ht => hrec t (by rw [hl]; exact List.mem_append_left _ ht)
  refine ⟨?_, ?_, ?_, countP_isNone_workerQueueSent _ hdel⟩
  · intro t ht
    exact hrec t (by rw [hl]; exact List.mem_append_right _ ht)
  · intro t ht
    exact hdel t (mem_delivered (Or.inr (Or.inl ht)))
  · intro t ht
    rcases ht with ht | ht
    · exact hdel t (mem_delivered (Or.inl ht))
    · exact hdel t (mem_delivered (Or.inr (Or.inr ht)))

/-- The nil scenario: the nil submitted is not sent, and the two nils on
`workerQueue` are the two termination signals. -/
theorem nil_task_safety_witness :
    runCalls (NewWorkerPool 2) nilScenarioCalls =
        some { (NewWorkerPool 2 : Pool Nat) with
          taskQueue := { closed := false, sent := [some 1, some 2] } } ∧
      (∀ t ∈ arrivals nilScenarioEvents, t ∈ [some 1, some 2]) ∧
      workerQueueSent (run (start (NewWorkerPool 2 : Pool Nat)) nilScenarioEvents).log =
        [none, none] ∧
      (workerQueueSent (run (start (NewWorkerPool 2 : Pool Nat)) nilScenarioEvents).log).countP
          Option.isNone =
        terminations (run (start (NewWorkerPool 2 : Pool Nat)) nilScenarioEvents).log :=
  ⟨by decide, by decide, by decide,
    (nil_task_safety.2.2 2 nilScenarioCalls _ nilScenarioEvents
      (show runCalls (NewWorkerPool 2) nilScenarioCalls =
        some { (NewWorkerPool 2 : Pool Nat) with
          taskQueue := { closed := false, sent := [some 1, some 2] } } by decide)
      (by decide)).2.2.2⟩

/-- C8 (shutdown idempotence): on a pool that is not shut down and whose
channels are open, as is every pool reached from a new one by gateway calls
while the flag is unset, `Shutdown` sets the flag and closes `taskQueue` and
`stop`, and changes nothing else; on every pool, `Shutdown` applied twice gives
what `Shutdown` applied once gives; and a `Shutdown` on a pool returned by
`Shutdown` returns it unchanged, so it closes no channel and does not panic. -/
theorem shutdown_idempotent {α : Type} :
    (∀ p : Pool α, p.shutdown = false → p.taskQueue.closed = false → p.stop.closed = false →
        Shutdown p =
          some { p with shutdown := true
                        taskQueue := { p.taskQueue with closed := true }
                        stop := { p.stop with closed := true } }) ∧
      (∀ (max : Int) (cs : List (Call α)) (p : Pool α),
        runCalls (NewWorkerPool max) cs = some p → p.shutdown = false →
        Shutdown p =
          some { p with shutdown := true
                        taskQueue := { p.taskQueue with closed := true }
                        stop := { p.stop with closed := true } }) ∧
      (∀ p : Pool α, (Shutdown p).bind Shutdown = Shutdown p) ∧
      (∀ p p1 : Pool α, Shutdown p = some p1 → Shutdown p1 = some p1) := by
  have h4 : ∀ p p1 : Pool α, Shutdown p = some p1 → Shutdown p1 = some p1 :=
    fun p p1 h => shutdown_of_shutdown p1 (shutdown_flag h)
  refine ⟨shutdown_of_open, ?_, ?_, h4⟩
  · intro max cs p hr hs
    obtain ⟨p1, h1, hi⟩ := gatewayInv_runCalls cs (NewWorkerPool max : Pool α) (gatewayInv_new max)
    rw [hr] at h1
    cases h1
    exact shutdown_of_open p hs (by rw [hi.1, hs]) (by rw [hi.2.1, hs])
  · intro p
    cases h : Shutdown p with
    | none => rfl
    | some p1 => exact h4 p p1 h

/-- The first and the second `Shutdown` on a pool that has accepted a task. -/
theorem shutdown_idempotent_witness :
    runCalls (NewWorkerPool 3 : Pool Nat) [.submit (some 1), .shutdown] =
        some { (NewWorkerPool 3 : Pool Nat) with
          shutdown := true
          taskQueue := { closed := true, sent := [some 1] }
          stop := { closed := true, sent := [] } } ∧
      runCalls (NewWorkerPool 3 : Pool Nat) [.submit (some 1), .shutdown, .shutdown] =
        some { (NewWorkerPool 3 : Pool Nat) with
          shutdown := true
          taskQueue := { closed := true, sent := [some 1] }
          stop := { closed := true, sent := [] } } ∧
      Shutdown { (NewWorkerPool 3 : Pool Nat) with
          shutdown := true
          taskQueue := { closed := true, sent := [some 1] }
          stop := { closed := true, sent := [] } } =
        some { (NewWorkerPool 3 : Pool Nat) with
          shutdown := true
          taskQueue := { closed := true, sent := [some 1] }
          stop := { closed := true, sent := [] } } :=
  ⟨by decide, by decide,
    shutdown_idempotent.2.2.2
      { (NewWorkerPool 3 : Pool Nat) with
        taskQueue := { closed := false, sent := [some 1] } } _ (by decide)⟩

/-- C9 (construction clamp): for every integer `max` the pool returned by
`NewWorkerPool(max)` has `maxWorker = max` when `max` is at least 1 and
`maxWorker = 1` otherwise, hence `maxWorker` at least 1 in both cases; its
waiting queue is empty, its shutdown flag unset, and its channels are open. -/
theorem construction_clamp {α : Type} (max : Int) :
    (1 ≤ max → (NewWorkerPool max : Pool α).maxWorker = max) ∧
      (max < 1 → (NewWorkerPool max : Pool α).maxWorker = 1) ∧
      1 ≤ (NewWorkerPool max : Pool α).maxWorker ∧
      (NewWorkerPool max : Pool α).waitingQueue = [] ∧
      (NewWorkerPool max : Pool α).shutdown = false ∧
      (NewWorkerPool max : Pool α).taskQueue = Chan.make ∧
      (NewWorkerPool max : Pool α).workerQueue = Chan.make ∧
      (NewWorkerPool max : Pool α).stop = Chan.make := by
  refine ⟨?_, ?_, maxWorker_NewWorkerPool max, rfl, rfl, rfl, rfl, rfl⟩
  · intro h
    have hn : ¬ max < 1 := by omega
    simp [NewWorkerPool, hn]
  · intro h
    simp [NewWorkerPool, h]

/-- The clamp at a value below 1 and at a value above it. -/
theorem construction_clamp_witness :
    (NewWorkerPool (-3) : Pool Nat).maxWorker = 1 ∧
      (NewWorkerPool 100 : Pool Nat).maxWorker = 100 :=
  ⟨(construction_clamp (-3)).2.1 (by decide), (construction_clamp 100).1 (by decide)⟩

/-- C10, as stated, fails: in the state reached by one task arrival and one
tick on a pool of one worker, the waiting queue is empty, the idle flag is set
and the worker count is 1; a tick that finds the worker busy (no receiver on
`workerQueue`, so `killIdleWorker` returns false) is handled and leaves the
state as it is: no termination signal is sent and the worker count stays 1. -/
theorem idle_eviction_step_counterexample :
    idleScenario.phase = .running ∧ idleScenario.waitingQueue = [] ∧
      idleScenario.idle = true ∧ 0 < idleScenario.workerLen ∧
      step idleScenario (.tick false) = some idleScenario ∧
      ¬ (∀ (s : Dispatcher Nat) (b : Bool), s.phase = .running → s.waitingQueue = [] →
        s.idle = true → 0 < s.workerLen →
        ∃ s1, step s (.tick b) = some s1 ∧ s1.workerLen = s.workerLen - 1 ∧
          s1.log = s.log ++ [.terminate]) := by
  refine ⟨by decide, by decide, by decide, by decide, by decide, ?_⟩
  intro h
  obtain ⟨s1, h1, h2, -⟩ := h idleScenario false (by decide) (by decide) (by decide) (by decide)
  have h3 : step idleScenario (.tick false) = some idleScenario := by decide
  rw [h3] at h1
  cases h1
  revert h2
  decide

/-- C10, amended (idle eviction step): in the loop, with an empty waiting
queue, the idle flag set and a positive worker count, a tick handled while a
worker is ready to receive on `workerQueue` sends one termination signal and
decrements the worker count by exactly one, the rest of the state unchanged; a
tick handled while no worker is ready to receive sends nothing and leaves the
state, worker count included, as it is. -/
theorem idle_eviction_step {α : Type} (s : Dispatcher α) (hp : s.phase = .running)
    (hq : s.waitingQueue = []) (hi : s.idle = true) (hw : 0 < s.workerLen) :
    step s (.tick true) =
        some { s with workerLen := s.workerLen - 1, log := s.log ++ [.terminate] } ∧
      step s (.tick false) = some s := by
  constructor
  · have h := Step.to_step (Step.evict s hp hq hi hw)
    rw [h]
    obtain ⟨mw, q, wl, idle, ph, log⟩ := s
    simp_all
  · have h := Step.to_step (Step.tick s false hp hq (by simp))
    rw [h]
    obtain ⟨mw, q, wl, idle, ph, log⟩ := s
    simp_all

/-- The amended C10 on the idle scenario: the ready worker is evicted. -/
theorem idle_eviction_step_witness :
    (idleScenario.phase = .running ∧ idleScenario.waitingQueue = [] ∧
        idleScenario.idle = true ∧ 0 < idleScenario.workerLen) ∧
      (run idleScenario [.tick true]).workerLen = 0 ∧
      step idleScenario (.tick true) =
        some { idleScenario with
          workerLen := idleScenario.workerLen - 1
          log := idleScenario.log ++ [.terminate] } :=
  ⟨⟨by decide, by decide, by decide, by decide⟩, by decide,
    (idle_eviction_step idleScenario (by decide) (by decide) (by decide) (by decide)).1⟩

/-! ## Idle eviction -/

@[simp] theorem spawned_nil {α : Type} : spawned ([] : List (Action α)) = [] := rfl

@[simp] theorem spawned_append {α : Type} (l m : List (Action α)) :
    spawned (l ++ m) = spawned l ++ spawned m := by
  simp [spawned, List.filterMap_append]

@[simp] theorem spawned_cons {α : Type} (a : Action α) (l : List (Action α)) :
    spawned (a :: l) = (match a with | .spawn t => [t] | _ => []) ++ spawned l := by
  cases a <;> rfl

/-- With the idle flag set and nothing waiting, each of `k` ticks that finds a
worker ready evicts one worker, until none is left. -/
theorem handle_ticks {α : Type} (k : Nat) :
    ∀ s : Dispatcher α, s.phase = .running → s.waitingQueue = [] → s.idle = true →
      0 ≤ s.workerLen →
      ∃ s2, handle s (List.replicate k (.tick true)) = some s2 ∧
        s2.workerLen = Max.max 0 (s.workerLen - k) ∧
        terminations s2.log = terminations s.log + Min.min k s.workerLen.toNat := by
  induction k with
  | zero =>
    intro s _ _ _ hw
    exact ⟨s, rfl, by simp [hw], by simp⟩
  | succ k ih =>
    intro s hp hq hi hw
    by_cases hpos : 0 < s.workerLen
    · have hs := Step.to_step (Step.evict s hp hq hi hpos)
      obtain ⟨s2, h2, h3, h4⟩ :=
        ih { s with idle := true, workerLen := s.workerLen - 1, log := s.log ++ [.terminate] }
          hp hq rfl (by show 0 ≤ s.workerLen - 1; omega)
      refine ⟨s2, by simp only [List.replicate_succ, handle, hs]; exact h2, ?_, ?_⟩
      · rw [h3]
        show Max.max 0 (s.workerLen - 1 - (k : Int)) = Max.max 0 (s.workerLen - ((k + 1 : Nat) : Int))
        congr 1
        omega
      · rw [h4]
        show terminations (s.log ++ [Action.terminate]) + Min.min k (s.workerLen - 1).toNat =
          terminations s.log + Min.min (k + 1) s.workerLen.toNat
        simp
        omega
    · have hs := Step.to_step (Step.tick s true hp hq (by simp [hpos]))
      obtain ⟨s2, h2, h3, h4⟩ := ih { s with idle := true } hp hq rfl hw
      refine ⟨s2, by simp only [List.replicate_succ, handle, hs]; exact h2, ?_, ?_⟩
      · rw [h3]
        show Max.max 0 (s.workerLen - (k : Int)) = Max.max 0 (s.workerLen - ((k + 1 : Nat) : Int))
        have h0 : s.workerLen = 0 := by omega
        rw [h0]
        simp
        omega
      · rw [h4]
        show terminations s.log + Min.min k s.workerLen.toNat =
          terminations s.log + Min.min (k + 1) s.workerLen.toNat
        have h0 : s.workerLen = 0 := by omega
        rw [h0]
        simp

theorem idleInv_step {α : Type} {s s1 : Dispatcher α} {e : Event α}
    (h : Step s e s1) (hi : IdleInv s) : IdleInv s1 := by
  cases h <;> simp_all [IdleInv]

theorem idleInv_run {α : Type} (max : Int) (es : List (Event α)) :
    IdleInv (run (start (NewWorkerPool max : Pool α)) es) :=
  run_induction (fun _ _ _ h hp => idleInv_step h hp) es _ (by simp [IdleInv, start, NewWorkerPool])

theorem liveInv_step {α : Type} {s s1 : Dispatcher α} {e : Event α}
    (h : Step s e s1) (hi : LiveInv s) : LiveInv s1 := by
  cases h <;> simp_all [LiveInv] <;> omega

theorem liveInv_run {α : Type} (max : Int) (es : List (Event α)) :
    LiveInv (run (start (NewWorkerPool max : Pool α)) es) :=
  run_induction (fun _ _ _ h hp => liveInv_step h hp) es _ (by simp [LiveInv, start])

/-- A transition that receives a task from a state that keeps the idle
invariant leaves the idle flag unset. -/
theorem Step.idle_after_task {α : Type} {s s1 : Dispatcher α} {t : Task α} {b : Bool}
    (h : Step s (.task t b) s1) (hi : IdleInv s) : s1.idle = false := by
  cases h <;> simp_all [IdleInv]

/-- A tick handled with the idle flag unset only sets the flag. -/
theorem step_tick_of_not_idle {α : Type} {s s1 : Dispatcher α} {b : Bool}
    (h : step s (.tick b) = some s1) (hi : s.idle = false) :
    s1 = { s with idle := true } := by
  cases Step.of_step h <;> simp_all

/-- A transition that receives a task happens in the loop and stays there. -/
theorem Step.phase_after_task {α : Type} {s s1 : Dispatcher α} {t : Task α} {b : Bool}
    (h : Step s (.task t b) s1) : s1.phase = .running := by
  cases h <;> simp_all

/-- No tick is handled while tasks wait. -/
theorem step_tick_of_waiting {α : Type} (s : Dispatcher α) (r : Bool)
    (hq : s.waitingQueue ≠ []) : step s (.tick r) = none := by
  cases h : step s (.tick r) with
  | none => rfl
  | some s1 => cases Step.of_step h <;> simp_all

/-- C11 (idle eviction scenario): after a task arrival that leaves the worker
count at `n`, in a state reached from a new pool, `m ≥ 1` ticks handled one after
the other, each finding a worker ready to receive, leave the worker count at
`max(0, n - (m - 1))`; these ticks are handled whenever the arrival left nothing
waiting, and no tick is handled while a task waits.  In particular, from the
initial state, one task arrival spawns a worker (worker count 1) and two ticks,
the second finding the worker blocked on `workerQueue`, bring the worker count
back to 0. -/
theorem idle_eviction_scenario {α : Type} (max : Int) (es : List (Event α)) (t : Task α)
    (b : Bool) (s1 : Dispatcher α) (m : Nat)
    (hs : step (run (start (NewWorkerPool max : Pool α)) es) (.task t b) = some s1)
    (hm : 1 ≤ m) :
    (∀ s2, handle s1 (List.replicate m (.tick true)) = some s2 →
        s2.workerLen = Max.max 0 (s1.workerLen - ((m : Int) - 1))) ∧
      (s1.waitingQueue = [] → ∃ s2, handle s1 (List.replicate m (.tick true)) = some s2) ∧
      (s1.waitingQueue ≠ [] → ∀ r, step s1 (.tick r) = none) ∧
      (∀ r : Bool,
        (run (start (NewWorkerPool max : Pool α)) [.task t false]).workerLen = 1 ∧
          (run (start (NewWorkerPool max : Pool α))
            [.task t false, .tick r, .tick true]).workerLen = 0) := by
  have hstep := Step.of_step hs
  have hidle : s1.idle = false := Step.idle_after_task hstep (idleInv_run max es)
  have hphase : s1.phase = .running := Step.phase_after_task hstep
  have hcap : 0 ≤ s1.workerLen := (capInv_step hstep (capInv_run max es)).1
  obtain ⟨k, rfl⟩ : ∃ k, m = k + 1 := ⟨m - 1, by omega⟩
  have hgen : s1.waitingQueue = [] →
      ∃ s2, handle s1 (List.replicate (k + 1) (.tick true)) = some s2 ∧
        s2.workerLen = Max.max 0 (s1.workerLen - (((k + 1 : Nat) : Int) - 1)) := by
    intro hq
    have h1 : step s1 (.tick true) = some { s1 with idle := true } :=
      Step.to_step (Step.tick s1 true hphase hq (by simp [hidle]))
    obtain ⟨s2, h2, h3, -⟩ := handle_ticks k { s1 with idle := true } hphase hq rfl hcap
    refine ⟨s2, by simp only [List.replicate_succ, handle, h1]; exact h2, ?_⟩
    rw [h3]
    show Max.max 0 (s1.workerLen - (k : Int)) = _
    congr 1
    omega
  refine ⟨?_, ?_, fun hq r => step_tick_of_waiting s1 r hq, ?_⟩
  · intro s2 h2
    by_cases hq : s1.waitingQueue = []
    · obtain ⟨s3, h3, h4⟩ := hgen hq
      rw [h3] at h2
      cases h2
      exact h4
    · simp [List.replicate_succ, handle, step_tick_of_waiting s1 true hq] at h2
  · intro hq
    obtain ⟨s3, h3, -⟩ := hgen hq
    exact ⟨s3, h3⟩
  · intro r
    have hmw := maxWorker_NewWorkerPool (α := α) max
    have h1 : step (start (NewWorkerPool max : Pool α)) (.task t false) =
        some { start (NewWorkerPool max : Pool α) with
          idle := false, workerLen := 1, log := [.recv t, .spawn t] } :=
      Step.to_step (Step.spawn (start (NewWorkerPool max : Pool α)) t rfl rfl
        (by show (0 : Int) < (NewWorkerPool max : Pool α).maxWorker; omega))
    have h2 : step { start (NewWorkerPool max : Pool α) with
          idle := false, workerLen := 1, log := [.recv t, .spawn t] } (.tick r) =
        some { start (NewWorkerPool max : Pool α) with
          idle := true, workerLen := 1, log := [.recv t, .spawn t] } :=
      Step.to_step (Step.tick _ r rfl rfl (by simp))
    have h3 : step { start (NewWorkerPool max : Pool α) with
          idle := true, workerLen := 1, log := [.recv t, .spawn t] } (.tick true) =
        some { start (NewWorkerPool max : Pool α) with
          idle := true, workerLen := 1 - 1,
          log := [.recv t, .spawn t] ++ [.terminate] } :=
      Step.to_step (Step.evict _ rfl rfl rfl (by show (0 : Int) < 1; omega))
    constructor
    · simp only [run, h1, Option.getD_some]
    · simp only [run, h1, h2, h3, Option.getD_some]
      rfl

/-- The scenario of C11 on a pool of three workers: a task arrives, then five
ticks find a worker ready. -/
theorem idle_eviction_scenario_witness :
    step (run (start (NewWorkerPool 3 : Pool Nat)) [.task (some 1) false, .task (some 2) false])
        (.task (some 3) false) =
      some (run (start (NewWorkerPool 3 : Pool Nat))
        [.task (some 1) false, .task (some 2) false, .task (some 3) false]) ∧
      (run (start (NewWorkerPool 3 : Pool Nat))
        [.task (some 1) false, .task (some 2) false, .task (some 3) false]).workerLen = 3 ∧
      (run (start (NewWorkerPool 3 : Pool Nat))
        [.task (some 1) false, .task (some 2) false, .task (some 3) false,
          .tick true, .tick true, .tick true]).workerLen = 1 ∧
      ∃ s2, handle (run (start (NewWorkerPool 3 : Pool Nat))
          [.task (some 1) false, .task (some 2) false, .task (some 3) false])
          (List.replicate 3 (.tick true)) = some s2 :=
  ⟨by decide, by decide, by decide,
    (idle_eviction_scenario 3 [.task (some 1) false, .task (some 2) false] (some 3) false
      (run (start (NewWorkerPool 3 : Pool Nat))
        [.task (some 1) false, .task (some 2) false, .task (some 3) false]) 3
      (by decide) (by decide)).2.1 (by decide)⟩

/-! ## Arrivals at busy workers -/

/-- At a saturated pool, tasks that arrive while no worker is ready are appended
to the waiting queue in arrival order. -/
theorem run_tasks_saturated {α : Type} (ts : List (Task α)) :
    ∀ s : Dispatcher α, s.phase = .running → s.idle = false →
      ¬ s.workerLen < s.maxWorker →
      run s (ts.map fun t => .task t false) =
        { s with waitingQueue := s.waitingQueue ++ ts
                 log := s.log ++ ts.flatMap fun t => [.recv t, .enqueue t] } := by
  induction ts with
  | nil =>
    intro s _ _ _
    obtain ⟨mw, q, wl, idle, ph, log⟩ := s
    simp [run]
  | cons t ts ih =>
    intro s hp hi hw
    cases hq : s.waitingQueue with
    | nil =>
      have hs := Step.to_step (Step.enqueue s t hp hq hw)
      simp only [List.map_cons, run, hs, Option.getD_some]
      rw [ih { s with idle := false, waitingQueue := [t],
                      log := s.log ++ [.recv t, .enqueue t] } hp rfl hw]
      obtain ⟨mw, q, wl, idle, ph, log⟩ := s
      simp_all
    | cons head rest =>
      have hs := Step.to_step (Step.waitTask s head rest t false hp hq)
      simp only [List.map_cons, run, hs, Option.getD_some]
      rw [ih { s with waitingQueue := s.waitingQueue ++ [t],
                      log := s.log ++ [.recv t, .enqueue t] } hp hi hw]
      obtain ⟨mw, q, wl, idle, ph, log⟩ := s
      simp_all

/-- With nothing waiting and room for `k` more workers, of the tasks that arrive
while no worker is ready the first `k` spawn a worker each and the others are
queued in arrival order. -/
theorem run_tasks_busy {α : Type} (ts : List (Task α)) :
    ∀ (k : Nat) (s : Dispatcher α), s.phase = .running → s.idle = false →
      s.waitingQueue = [] → s.workerLen + k = s.maxWorker →
      run s (ts.map fun t => .task t false) =
        { s with workerLen := s.workerLen + (Min.min ts.length k : Nat)
                 waitingQueue := ts.drop k
                 log := s.log ++ ((ts.take k).flatMap fun t => [.recv t, .spawn t]) ++
                   (ts.drop k).flatMap fun t => [.recv t, .enqueue t] } := by
  induction ts with
  | nil =>
    intro k s _ _ hq _
    obtain ⟨mw, q, wl, idle, ph, log⟩ := s
    simp_all [run]
  | cons t ts ih =>
    intro k s hp hi hq hk
    cases k with
    | zero =>
      have hw : ¬ s.workerLen < s.maxWorker := by omega
      rw [run_tasks_saturated (t :: ts) s hp hi hw]
      obtain ⟨mw, q, wl, idle, ph, log⟩ := s
      simp_all
    | succ k =>
      have hw : s.workerLen < s.maxWorker := by omega
      have hs := Step.to_step (Step.spawn s t hp hq hw)
      simp only [List.map_cons, run, hs, Option.getD_some]
      rw [ih k { s with idle := false, workerLen := s.workerLen + 1,
                        log := s.log ++ [.recv t, .spawn t] } hp rfl hq
        (by show s.workerLen + 1 + (k : Int) = s.maxWorker; omega)]
      obtain ⟨mw, q, wl, idle, ph, log⟩ := s
      simp_all
      omega

theorem spawned_flatMap_spawn {α : Type} (l : List (Task α)) :
    spawned (l.flatMap fun t => [Action.recv t, Action.spawn t]) = l := by
  induction l with
  | nil => rfl
  | cons t l ih => simp [List.flatMap_cons, ih]

theorem spawned_flatMap_enqueue {α : Type} (l : List (Task α)) :
    spawned (l.flatMap fun t => [Action.recv t, Action.enqueue t]) = [] := by
  induction l with
  | nil => rfl
  | cons t l ih => simp [List.flatMap_cons, ih]

/-- While a task is at the head of the waiting queue, a transition either
delivers nothing and keeps it at the head, or is the reception by a worker of
that very task. -/
theorem step_of_waiting_head {α : Type} {s s1 : Dispatcher α} {e : Event α}
    {head : Task α} {rest : List (Task α)} (hq : s.waitingQueue = head :: rest)
    (h : step s e = some s1) :
    (delivered s1.log = delivered s.log ∧ ∃ r, s1.waitingQueue = head :: r) ∨
      (e = .ready ∧ s1.log = s.log ++ [.dequeue head] ∧ s1.waitingQueue = rest) := by
  cases Step.of_step h <;> simp_all

/-- From the initial state, tasks that arrive while no worker is ready: as
many spawns as `maxWorker` allows, the other tasks queued. -/
theorem run_tasks_new {α : Type} (mx : Int) (ts : List (Task α)) :
    run (start (NewWorkerPool mx : Pool α)) (ts.map fun t => .task t false) =
        { start (NewWorkerPool mx : Pool α) with
          workerLen := (Min.min ts.length (NewWorkerPool mx : Pool α).maxWorker.toNat : Nat)
          waitingQueue := ts.drop (NewWorkerPool mx : Pool α).maxWorker.toNat
          log := ((ts.take (NewWorkerPool mx : Pool α).maxWorker.toNat).flatMap
              fun t => [.recv t, .spawn t]) ++
            (ts.drop (NewWorkerPool mx : Pool α).maxWorker.toNat).flatMap
              fun t => [.recv t, .enqueue t] } := by
  have hm := maxWorker_NewWorkerPool (α := α) mx
  rw [run_tasks_busy ts (NewWorkerPool mx : Pool α).maxWorker.toNat
    (start (NewWorkerPool mx : Pool α)) rfl rfl rfl
    (by show (0 : Int) + ((NewWorkerPool mx : Pool α).maxWorker.toNat : Int) =
          (NewWorkerPool mx : Pool α).maxWorker
        omega)]
  simp [start]

/-- C12 (FIFO under saturation scenario): from the initial state of a pool with
`maxWorker = m`, when `n` tasks arrive and no worker is ready to receive at any
of the arrivals, the first `min(n, m)` tasks spawn one worker each, bound to that
task, and the others are in the waiting queue in arrival order, nothing else
having happened; with `m = 2` and tasks `T1, T2, T3` there are two workers, bound
to `T1` and `T2`, and the waiting queue is `[T3]`; and a task at the head of the
waiting queue is delivered only by a later send that a worker receives. -/
theorem fifo_under_saturation {α : Type} (max : Int) (ts : List (Task α)) :
    run (start (NewWorkerPool max : Pool α)) (ts.map fun t => .task t false) =
        { start (NewWorkerPool max : Pool α) with
          workerLen := (Min.min ts.length (NewWorkerPool max : Pool α).maxWorker.toNat : Nat)
          waitingQueue := ts.drop (NewWorkerPool max : Pool α).maxWorker.toNat
          log := ((ts.take (NewWorkerPool max : Pool α).maxWorker.toNat).flatMap
              fun t => [.recv t, .spawn t]) ++
            (ts.drop (NewWorkerPool max : Pool α).maxWorker.toNat).flatMap
              fun t => [.recv t, .enqueue t] } ∧
      spawned (run (start (NewWorkerPool max : Pool α)) (ts.map fun t => .task t false)).log =
        ts.take (NewWorkerPool max : Pool α).maxWorker.toNat ∧
      (∀ t1 t2 t3 : Task α,
        run (start (NewWorkerPool 2 : Pool α))
            [.task t1 false, .task t2 false, .task t3 false] =
          { start (NewWorkerPool 2 : Pool α) with
            workerLen := 2
            waitingQueue := [t3]
            log := [.recv t1, .spawn t1, .recv t2, .spawn t2, .recv t3, .enqueue t3] }) ∧
      (∀ (s s1 : Dispatcher α) (e : Event α) (head : Task α) (rest : List (Task α)),
        s.waitingQueue = head :: rest → step s e = some s1 →
        (delivered s1.log = delivered s.log ∧ ∃ r, s1.waitingQueue = head :: r) ∨
          (e = .ready ∧ s1.log = s.log ++ [.dequeue head] ∧ s1.waitingQueue = rest)) := by
  refine ⟨run_tasks_new max ts, ?_, ?_, ?_⟩
  · rw [run_tasks_new max ts]
    simp [spawned_flatMap_spawn, spawned_flatMap_enqueue]
  · intro t1 t2 t3
    have h := run_tasks_new (α := α) 2 [t1, t2, t3]
    have h2 : (NewWorkerPool 2 : Pool α).maxWorker.toNat = 2 := rfl
    rw [h2] at h
    simpa using h
  · intro s s1 e head rest hq h
    exact step_of_waiting_head hq h

/-- The scenario of C12 with three named tasks, and the later delivery of the
third one when a worker becomes ready. -/
theorem fifo_under_saturation_witness :
    (run (start (NewWorkerPool 2 : Pool Nat))
        [.task (some 1) false, .task (some 2) false, .task (some 3) false]).waitingQueue =
        [some 3] ∧
      spawned (run (start (NewWorkerPool 2 : Pool Nat))
        [.task (some 1) false, .task (some 2) false, .task (some 3) false]).log =
        [some 1, some 2] ∧
      delivered (run (start (NewWorkerPool 2 : Pool Nat))
        [.task (some 1) false, .task (some 2) false, .task (some 3) false, .ready]).log =
        [some 1, some 2, some 3] ∧
      ((delivered (run (start (NewWorkerPool 2 : Pool Nat))
            [.task (some 1) false, .task (some 2) false, .task (some 3) false, .ready]).log =
          delivered (run (start (NewWorkerPool 2 : Pool Nat))
            [.task (some 1) false, .task (some 2) false, .task (some 3) false]).log ∧
          ∃ r, (run (start (NewWorkerPool 2 : Pool Nat))
            [.task (some 1) false, .task (some 2) false, .task (some 3) false,
              .ready]).waitingQueue = some 3 :: r) ∨
        (Event.ready = (.ready : Event Nat) ∧
          (run (start (NewWorkerPool 2 : Pool Nat))
            [.task (some 1) false, .task (some 2) false, .task (some 3) false, .ready]).log =
            (run (start (NewWorkerPool 2 : Pool Nat))
              [.task (some 1) false, .task (some 2) false, .task (some 3) false]).log ++
              [.dequeue (some 3)] ∧
          (run (start (NewWorkerPool 2 : Pool Nat))
            [.task (some 1) false, .task (some 2) false, .task (some 3) false,
              .ready]).waitingQueue = [])) :=
  ⟨by decide, by decide, by decide,
    (fifo_under_saturation 2 [some 1, some 2, some 3]).2.2.2
      (run (start (NewWorkerPool 2 : Pool Nat))
        [.task (some 1) false, .task (some 2) false, .task (some 3) false])
      (run (start (NewWorkerPool 2 : Pool Nat))
        [.task (some 1) false, .task (some 2) false, .task (some 3) false, .ready])
      .ready (some 3) [] (by decide) (by decide)⟩

/-! ## The debounce of the eviction -/

/-- The idle flag is set only when the run has been quiet since a tick. -/
theorem quiet_of_idle {α : Type} (es : List (Event α)) :
    ∀ (s : Dispatcher α) (q : Bool), IdleInv s → (s.idle = true → q = true) →
      (run s es).idle = true → quiet s es q = true := by
  induction es with
  | nil => intro s q _ hq hi; exact hq hi
  | cons e es ih =>
    intro s q hinv hq hi
    cases hs : step s e with
    | none =>
      rw [run, hs] at hi
      simp only [quiet, hs]
      exact ih s q hinv hq hi
    | some s1 =>
      rw [run, hs] at hi
      simp only [quiet, hs]
      have hstep := Step.of_step hs
      refine ih s1 _ (idleInv_step hstep hinv) ?_ hi
      intro h1
      cases hstep <;> simp_all [IdleInv]

/-- C16 (eviction debounce covers any dispatch): in every state reached from a
new pool the idle flag is unset whenever a task waits; a tick that evicts a
worker (the worker count or the number of termination signals changes) is
handled only when a tick was handled before and, since the last one, no task
arrived from `taskQueue` and none was handed from the waiting queue to a worker,
and it then sends one nil and decrements the worker count; every dispatch
(a transition that receives or delivers a task: handoff, spawn, enqueue,
waiting-queue handoff) leaves the idle flag unset; no event other than a tick
sets the flag; and a tick handled while the flag is unset changes neither the
worker count nor the log. -/
theorem eviction_debounce {α : Type} (max : Int) (es : List (Event α)) :
    ((run (start (NewWorkerPool max : Pool α)) es).waitingQueue ≠ [] →
        (run (start (NewWorkerPool max : Pool α)) es).idle = false) ∧
      (∀ (b : Bool) (s1 : Dispatcher α),
        step (run (start (NewWorkerPool max : Pool α)) es) (.tick b) = some s1 →
        (s1.workerLen ≠ (run (start (NewWorkerPool max : Pool α)) es).workerLen ∨
          terminations s1.log ≠
            terminations (run (start (NewWorkerPool max : Pool α)) es).log) →
        quiet (start (NewWorkerPool max : Pool α)) es false = true ∧
          s1.workerLen = (run (start (NewWorkerPool max : Pool α)) es).workerLen - 1 ∧
          s1.log = (run (start (NewWorkerPool max : Pool α)) es).log ++ [.terminate]) ∧
      (∀ (e : Event α) (s1 : Dispatcher α),
        step (run (start (NewWorkerPool max : Pool α)) es) e = some s1 →
        (received s1.log ≠ received (run (start (NewWorkerPool max : Pool α)) es).log ∨
          delivered s1.log ≠ delivered (run (start (NewWorkerPool max : Pool α)) es).log) →
        s1.idle = false) ∧
      (∀ (s s1 : Dispatcher α) (e : Event α), step s e = some s1 → (∀ b, e ≠ .tick b) →
        s.idle = false → s1.idle = false) ∧
      (∀ (s s1 : Dispatcher α) (b : Bool), step s (.tick b) = some s1 → s.idle = false →
        s1.workerLen = s.workerLen ∧ s1.log = s.log) := by
  have hinv := idleInv_run (α := α) max es
  refine ⟨hinv, ?_, ?_, ?_, ?_⟩
  · intro b s1 hs hch
    have hidle : (run (start (NewWorkerPool max : Pool α)) es).idle = true := by
      cases Step.of_step hs <;> simp_all
    refine ⟨quiet_of_idle es _ false (by simp [IdleInv, start, NewWorkerPool])
      (by simp [start]) hidle, ?_⟩
    cases Step.of_step hs <;> simp_all
  · intro e s1 hs hch
    cases Step.of_step hs <;> simp_all [IdleInv]
  · intro s s1 e hs he hi
    cases Step.of_step hs <;> simp_all
  · intro s s1 b hs hi
    cases Step.of_step hs <;> simp_all

/-- A run on which C16 is exercised: the tick that follows the handoff of a
queued task evicts nobody; the next one, after a quiet interval, does. -/
theorem eviction_debounce_witness :
    step (run (start (NewWorkerPool 1 : Pool Nat))
        [.task (some 1) false, .task (some 2) false, .ready, .tick true]) (.tick true) =
      some (run (start (NewWorkerPool 1 : Pool Nat))
        [.task (some 1) false, .task (some 2) false, .ready, .tick true, .tick true]) ∧
      (run (start (NewWorkerPool 1 : Pool Nat))
        [.task (some 1) false, .task (some 2) false, .ready, .tick true]).workerLen = 1 ∧
      (run (start (NewWorkerPool 1 : Pool Nat))
        [.task (some 1) false, .task (some 2) false, .ready, .tick true,
          .tick true]).workerLen = 0 ∧
      quiet (start (NewWorkerPool 1 : Pool Nat))
        [.task (some 1) false, .task (some 2) false, .ready, .tick true] false = true :=
  ⟨by decide, by decide, by decide,
    ((eviction_debounce 1
      [.task (some 1) false, .task (some 2) false, .ready, .tick true]).2.1 true
      (run (start (NewWorkerPool 1 : Pool Nat))
        [.task (some 1) false, .task (some 2) false, .ready, .tick true, .tick true])
      (by decide) (by decide)).1⟩

/-- C17 (task-arrival decision table): in the loop with an empty waiting queue,
a task that arrives is (a) handed to a worker that is ready to receive, the
worker count and the waiting queue unchanged; (b) bound to a new worker when no
worker is ready and the worker count is below `maxWorker`, the worker count
growing by exactly 1 and the waiting queue staying empty; (c) made the only
element of the waiting queue when no worker is ready and the worker count has
reached `maxWorker`, the worker count unchanged; in the three cases the idle
flag is unset and nothing else changes. -/
theorem task_arrival_decision_table {α : Type} (s : Dispatcher α) (t : Task α)
    (hp : s.phase = .running) (hq : s.waitingQueue = []) :
    step s (.task t true) =
        some { s with idle := false, log := s.log ++ [.recv t, .handoff t] } ∧
      (s.workerLen < s.maxWorker →
        step s (.task t false) =
          some { s with idle := false, workerLen := s.workerLen + 1, waitingQueue := []
                        log := s.log ++ [.recv t, .spawn t] }) ∧
      (s.maxWorker ≤ s.workerLen →
        step s (.task t false) =
          some { s with idle := false, waitingQueue := [t]
                        log := s.log ++ [.recv t, .enqueue t] }) := by
  refine ⟨Step.to_step (Step.handoff s t hp hq), ?_, ?_⟩
  · intro hw
    rw [Step.to_step (Step.spawn s t hp hq hw), ← hq]
  · intro hw
    exact Step.to_step (Step.enqueue s t hp hq (by omega))

/-- The three rows of the table on a pool of one worker. -/
theorem task_arrival_decision_table_witness :
    (step (start (NewWorkerPool 1 : Pool Nat)) (.task (some 1) false) =
        some { start (NewWorkerPool 1 : Pool Nat) with
          idle := false, workerLen := 0 + 1, waitingQueue := []
          log := [] ++ [.recv (some 1), .spawn (some 1)] }) ∧
      (step (run (start (NewWorkerPool 1 : Pool Nat)) [.task (some 1) false])
          (.task (some 2) true) =
        some { run (start (NewWorkerPool 1 : Pool Nat)) [.task (some 1) false] with
          idle := false
          log := [.recv (some 1), .spawn (some 1)] ++ [.recv (some 2), .handoff (some 2)] }) ∧
      (step (run (start (NewWorkerPool 1 : Pool Nat)) [.task (some 1) false])
          (.task (some 2) false) =
        some { run (start (NewWorkerPool 1 : Pool Nat)) [.task (some 1) false] with
          idle := false, waitingQueue := [some 2]
          log := [.recv (some 1), .spawn (some 1)] ++ [.recv (some 2), .enqueue (some 2)] }) :=
  ⟨(task_arrival_decision_table (start (NewWorkerPool 1 : Pool Nat)) (some 1)
      (by decide) (by decide)).2.1 (by decide),
    (task_arrival_decision_table (run (start (NewWorkerPool 1 : Pool Nat))
      [.task (some 1) false]) (some 2) (by decide) (by decide)).1,
    (task_arrival_decision_table (run (start (NewWorkerPool 1 : Pool Nat))
      [.task (some 1) false]) (some 2) (by decide) (by decide)).2.2 (by decide)⟩

/-- C20 (the drain always has a receiver): in every state reached from a new
pool, a non-empty waiting queue means a worker count of at least 1; the number
of nil termination signals sent so far is the number of workers spawned minus
the worker count; so whenever a task waits, in the drain as in the loop, at
least one spawned worker has not been sent a termination signal. -/
theorem drain_has_receiver {α : Type} (max : Int) (es : List (Event α)) :
    ((run (start (NewWorkerPool max : Pool α)) es).waitingQueue ≠ [] →
        1 ≤ (run (start (NewWorkerPool max : Pool α)) es).workerLen) ∧
      (terminations (run (start (NewWorkerPool max : Pool α)) es).log : Int) =
        ((spawned (run (start (NewWorkerPool max : Pool α)) es).log).length : Int) -
          (run (start (NewWorkerPool max : Pool α)) es).workerLen ∧
      ((run (start (NewWorkerPool max : Pool α)) es).waitingQueue ≠ [] →
        terminations (run (start (NewWorkerPool max : Pool α)) es).log <
          (spawned (run (start (NewWorkerPool max : Pool α)) es).log).length) := by
  have hcap := capInv_run (α := α) max es
  have hlive : LiveInv (run (start (NewWorkerPool max : Pool α)) es) := liveInv_run max es
  have hm : 1 ≤ (run (start (NewWorkerPool max : Pool α)) es).maxWorker := by
    rw [run_maxWorker]
    exact maxWorker_NewWorkerPool (α := α) max
  have h1 : (run (start (NewWorkerPool max : Pool α)) es).waitingQueue ≠ [] →
      1 ≤ (run (start (NewWorkerPool max : Pool α)) es).workerLen := by
    intro hq
    rw [hcap.2.2 hq]
    exact hm
  refine ⟨h1, hlive, ?_⟩
  intro hq
  have h2 := h1 hq
  unfold LiveInv at hlive
  omega

/-- The drain of a pool of one worker with one task waiting: the worker has
not been sent a termination signal. -/
theorem drain_has_receiver_witness :
    (run (start (NewWorkerPool 1 : Pool Nat))
        [.task (some 1) false, .task (some 2) false, .closed]).waitingQueue = [some 2] ∧
      1 ≤ (run (start (NewWorkerPool 1 : Pool Nat))
        [.task (some 1) false, .task (some 2) false, .closed]).workerLen ∧
      terminations (run (start (NewWorkerPool 1 : Pool Nat))
        [.task (some 1) false, .task (some 2) false, .closed]).log <
        (spawned (run (start (NewWorkerPool 1 : Pool Nat))
          [.task (some 1) false, .task (some 2) false, .closed]).log).length :=
  ⟨by decide,
    (drain_has_receiver 1 [.task (some 1) false, .task (some 2) false, .closed]).1
      (by decide),
    (drain_has_receiver 1 [.task (some 1) false, .task (some 2) false, .closed]).2.2
      (by decide)⟩

/-! ## The worker loop -/

theorem workerLoop_of_nil_free {α : Type} (pre : List (Task α)) :
    ∀ (t : α) (acc : List α) (post : List (Task α)), (∀ v ∈ pre, v ≠ none) →
      workerLoop (some t) (pre ++ none :: post) acc =
        { executed := acc ++ t :: pre.filterMap id, unread := post, exited := true, done := 1 } := by
  induction pre with
  | nil => intro t acc post _; simp [workerLoop]
  | cons v pre ih =>
    intro t acc post h
    cases v with
    | none => exact absurd rfl (h none (List.mem_cons_self _ _))
    | some u =>
      have hcons : (some u :: pre) ++ none :: post = some u :: (pre ++ none :: post) := rfl
      rw [hcons, workerLoop,
        ih u (acc ++ [t]) post (fun w hw => h w (List.mem_cons_of_mem _ hw))]
      simp

theorem workerLoop_blocked {α : Type} (s : List (Task α)) :
    ∀ (t : α) (acc : List α), (∀ v ∈ s, v ≠ none) →
      workerLoop (some t) s acc =
        { executed := acc ++ t :: s.filterMap id, unread := [], exited := false, done := 0 } := by
  induction s with
  | nil => intro t acc _; simp [workerLoop]
  | cons v s ih =>
    intro t acc h
    cases v with
    | none => exact absurd rfl (h none (List.mem_cons_self _ _))
    | some u =>
      simp only [workerLoop]
      rw [ih u (acc ++ [t]) (fun w hw => h w (List.mem_cons_of_mem _ hw))]
      simp

theorem workerLoop_executed {α : Type} (s : List (Task α)) :
    ∀ (t : α) (acc : List α),
      (workerLoop (some t) s acc).executed =
        acc ++ t :: (s.takeWhile Option.isSome).filterMap id := by
  induction s with
  | nil => intro t acc; simp [workerLoop]
  | cons v s ih =>
    intro t acc
    cases v with
    | none => simp [workerLoop]
    | some u =>
      simp only [workerLoop]
      rw [ih u (acc ++ [t])]
      simp [List.takeWhile_cons]

theorem workerLoop_done {α : Type} (s : List (Task α)) :
    ∀ (t : Task α) (acc : List α),
      ((workerLoop t s acc).exited = true ↔ (t = none ∨ none ∈ s)) ∧
        (workerLoop t s acc).done = if (workerLoop t s acc).exited then 1 else 0 := by
  induction s with
  | nil =>
    intro t acc
    cases t <;> simp [workerLoop]
  | cons v s ih =>
    intro t acc
    cases t with
    | none => simp [workerLoop]
    | some u =>
      simp only [workerLoop]
      obtain ⟨h1, h2⟩ := ih v (acc ++ [u])
      refine ⟨?_, h2⟩
      rw [h1]
      simp [eq_comm]

/-- C18 (worker loop): called with a non-nil task `t` and offered on
`workerQueue` the values `s`, `worker` calls `t` and then the closures of the
longest nil-free initial segment of `s`, once each and in order; when `s` is
`pre` without nil, then nil, then `post`, it returns at that nil, leaves `post`
unread and has called `wg.Done()` exactly once; it returns exactly when a nil is
among the values, calls `wg.Done()` once when it returns and not before, and
while `s` holds no nil it has received all of `s` and waits for the next value;
called with a nil task it calls nothing, receives nothing and returns. -/
theorem worker_loop {α : Type} (t : α) (s : List (Task α)) :
    (worker (some t) s).executed = t :: (s.takeWhile Option.isSome).filterMap id ∧
      (∀ pre post : List (Task α), (∀ v ∈ pre, v ≠ none) → s = pre ++ none :: post →
        worker (some t) s =
          { executed := t :: pre.filterMap id, unread := post, exited := true, done := 1 }) ∧
      ((worker (some t) s).exited = true ↔ none ∈ s) ∧
      (worker (some t) s).done = (if (worker (some t) s).exited then 1 else 0) ∧
      ((∀ v ∈ s, v ≠ none) →
        worker (some t) s =
          { executed := t :: s.filterMap id, unread := [], exited := false, done := 0 }) ∧
      worker none s = { executed := [], unread := s, exited := true, done := 1 } := by
  refine ⟨?_, ?_, ?_, ?_, ?_, ?_⟩
  · simpa [worker] using workerLoop_executed s t []
  · intro pre post hpre hs
    subst hs
    simpa [worker] using workerLoop_of_nil_free pre t [] post hpre
  · simpa [worker] using (workerLoop_done s (some t) []).1
  · simpa [worker] using (workerLoop_done s (some t) []).2
  · intro h
    simpa [worker] using workerLoop_blocked s t [] h
  · cases s <;> rfl

/-- A worker bound to task 1 that is offered tasks 2 and 3, a termination
signal, and task 4. -/
theorem worker_loop_witness :
    worker (some 1) [some 2, some 3, none, some 4] =
      { executed := [1, 2, 3], unread := [some 4], exited := true, done := 1 } :=
  (worker_loop 1 [some 2, some 3, none, some 4]).2.1 [some 2, some 3] [some 4]
    (by decide) rfl

end WorkerPool

namespace Server

/-! ## The request pipeline -/

/-! ### Cutting and splitting -/

theorem Cut_of_none (sep : Str) : ∀ s : Str, (Cut s sep).2 = none → (Cut s sep).1 = s := by
  intro s
  induction s with
  | nil => intro _; rfl
  | cons c rest ih =>
    intro h
    by_cases hp : sep.isPrefixOf (c :: rest) = true
    · simp [Cut, hp] at h
    · simp only [Cut, hp] at h ⊢
      simp only [Bool.false_eq_true, if_false] at h ⊢
      rw [ih h]

theorem Cut_of_some (sep : Str) :
    ∀ (s after : Str), (Cut s sep).2 = some after → s = (Cut s sep).1 ++ sep ++ after := by
  intro s
  induction s with
  | nil => intro after h; simp [Cut] at h
  | cons c rest ih =>
    intro after h
    by_cases hp : sep.isPrefixOf (c :: rest) = true
    · simp only [Cut, hp, if_true] at h ⊢
      obtain ⟨t, ht⟩ := List.isPrefixOf_iff_prefix.mp hp
      cases h
      rw [← ht]
      simp
    · simp only [Cut, hp] at h ⊢
      simp only [Bool.false_eq_true, if_false] at h ⊢
      have := ih after h
      rw [List.cons_append, List.cons_append, ← this]

/-- What `Cut` returns first starts the text. -/
theorem Cut_fst_prefix (sep s : Str) : (Cut s sep).1 <+: s := by
  cases h : (Cut s sep).2 with
  | none => rw [Cut_of_none sep s h]
  | some after =>
    refine ⟨sep ++ after, ?_⟩
    have := Cut_of_some sep s after h
    rw [← List.append_assoc]
    exact this.symm

/-- What `Cut` returns first holds no instance of the separator. -/
theorem not_infix_Cut_fst (sep : Str) (hsep : sep ≠ []) :
    ∀ s : Str, ¬ sep <:+: (Cut s sep).1 := by
  intro s
  induction s with
  | nil =>
    intro h
    have : sep = [] := List.eq_nil_of_infix_nil h
    exact hsep this
  | cons c rest ih =>
    by_cases hp : sep.isPrefixOf (c :: rest) = true
    · simp only [Cut, hp, if_true]
      intro h
      exact hsep (List.eq_nil_of_infix_nil h)
    · simp only [Cut, hp]
      simp only [Bool.false_eq_true, if_false]
      intro h
      rcases List.infix_cons_iff.mp h with h | h
      · apply hp
        apply List.isPrefixOf_iff_prefix.mpr
        obtain ⟨u, hu⟩ := h
        obtain ⟨v, hv⟩ := Cut_fst_prefix sep rest
        refine ⟨u ++ v, ?_⟩
        rw [← List.append_assoc, hu, List.cons_append, hv]
      · exact ih h

theorem SplitN_headD (sep : Str) (s : Str) (n : Nat) (h : s.length ≤ n) :
    (SplitN s sep (n + 1)).headD [] = (Cut s sep).1 := by
  cases n with
  | zero =>
    have hs : s = [] := List.length_eq_zero.mp (by omega)
    subst hs
    rfl
  | succ n =>
    simp only [SplitN]
    cases hc : Cut s sep with
    | mk before after =>
      cases after <;> simp

theorem Split_headD (s sep : Str) : (Split s sep).headD [] = (Cut s sep).1 :=
  SplitN_headD sep s s.length (le_refl _)

theorem Split_length_pos (s sep : Str) : (Split s sep).length ≠ 0 := by
  unfold Split
  cases hl : s.length with
  | zero => simp [SplitN]
  | succ n =>
    simp only [SplitN]
    cases hc : Cut s sep with
    | mk before after =>
      cases after <;> simp

/-! ### The request line -/

/-- The result of `parseRequest` in terms of the request line. -/
theorem parseRequest_eq (data : Str) :
    parseRequest data =
      if (Fields (requestLineText data)).length ≠ 3 then none
      else
        some
          { Method := (Fields (requestLineText data)).getD 0 []
            Path := (Fields (requestLineText data)).getD 1 []
            Headers :=
              ((Split (Cut data ['\r', '\n', '\r', '\n']).1 ['\r', '\n']).drop 1).foldl
                (fun (headers : Headers) (line : Str) =>
                  if line.length = 0 then headers
                  else
                    if (SplitN line [':', ' '] 2).length = 2 then
                      headers.set ((SplitN line [':', ' '] 2).getD 0 [])
                        ((SplitN line [':', ' '] 2).getD 1 [])
                    else headers)
                []
            Body :=
              if (Split data ['\r', '\n', '\r', '\n']).length > 1 then
                (Split data ['\r', '\n', '\r', '\n']).getD 1 []
              else [] } := by
  simp only [parseRequest, Split_headD, requestLineText]
  rw [if_neg (Split_length_pos _ _)]

theorem parseRequest_eq_none_iff (data : Str) :
    parseRequest data = none ↔ (Fields (requestLineText data)).length ≠ 3 := by
  rw [parseRequest_eq]
  by_cases h : (Fields (requestLineText data)).length ≠ 3
  · simp [h]
  · rw [if_neg h]
    simp [h]

theorem parseRequest_fields (data : Str) (req : HTTPRequest)
    (h : parseRequest data = some req) :
    ∃ version, Fields (requestLineText data) = [req.Method, req.Path, version] := by
  rw [parseRequest_eq] at h
  by_cases h3 : (Fields (requestLineText data)).length ≠ 3
  · rw [if_pos h3] at h
    cases h
  · rw [if_neg h3] at h
    cases h
    have h3 : (Fields (requestLineText data)).length = 3 := by
      by_contra hne
      exact h3 hne
    generalize Fields (requestLineText data) = fs at h3 ⊢
    match fs, h3 with
    | [a, b, c], _ => exact ⟨c, rfl⟩

/-- The request line is the text before the first CRLF of the request text,
or the whole text when it holds no CRLF. -/
theorem requestLineText_spec (data : Str) :
    (data = requestLineText data ∨
        ∃ rest, data = requestLineText data ++ ['\r', '\n'] ++ rest) ∧
      ¬ ['\r', '\n'] <:+: requestLineText data := by
  refine ⟨?_, not_infix_Cut_fst _ (by simp) _⟩
  unfold requestLineText
  cases h2 : (Cut data ['\r', '\n', '\r', '\n']).2 with
  | none =>
    have hd := Cut_of_none _ data h2
    rw [hd]
    cases h1 : (Cut data ['\r', '\n']).2 with
    | none => exact Or.inl (Cut_of_none _ data h1).symm
    | some a1 => exact Or.inr ⟨a1, Cut_of_some _ data a1 h1⟩
  | some a2 =>
    have hd := Cut_of_some _ data a2 h2
    cases h1 : (Cut (Cut data ['\r', '\n', '\r', '\n']).1 ['\r', '\n']).2 with
    | none =>
      have hs := Cut_of_none _ _ h1
      refine Or.inr ⟨['\r', '\n'] ++ a2, ?_⟩
      rw [hs]
      conv_lhs => rw [hd]
      simp
    | some a1 =>
      have hs := Cut_of_some _ _ a1 h1
      refine Or.inr ⟨a1 ++ ['\r', '\n', '\r', '\n'] ++ a2, ?_⟩
      conv_lhs => rw [hd, hs]
      simp

theorem fieldsLoop_spec (s : Str) :
    ∀ cur : Str, (∀ c ∈ cur, isSpace c = false) →
      ∀ f ∈ fieldsLoop s cur, f ≠ [] ∧ ∀ c ∈ f, isSpace c = false := by
  induction s with
  | nil =>
    intro cur hcur f hf
    by_cases h0 : cur.length = 0
    · simp [fieldsLoop, h0] at hf
    · simp only [fieldsLoop, h0, if_false, List.mem_singleton] at hf
      subst hf
      refine ⟨?_, fun c hc => hcur c (List.mem_reverse.mp hc)⟩
      intro h
      apply h0
      simpa using congrArg List.length h
  | cons c rest ih =>
    intro cur hcur f hf
    by_cases hsp : isSpace c = true
    · by_cases h0 : cur.length = 0
      · simp only [fieldsLoop, hsp, h0, if_true] at hf
        exact ih [] (by simp) f hf
      · simp only [fieldsLoop, hsp, h0, if_true, if_false, List.mem_cons] at hf
        rcases hf with hf | hf
        · subst hf
          refine ⟨?_, fun c hc => hcur c (List.mem_reverse.mp hc)⟩
          intro h
          apply h0
          simpa using congrArg List.length h
        · exact ih [] (by simp) f hf
    · simp only [fieldsLoop, hsp] at hf
      simp only [Bool.false_eq_true, if_false] at hf
      refine ih (c :: cur) ?_ f hf
      intro d hd
      rcases List.mem_cons.mp hd with hd | hd
      · subst hd
        simpa using hsp
      · exact hcur d hd

/-- The fields of a text are non-empty and hold no white space. -/
theorem Fields_spec (s : Str) :
    ∀ f ∈ Fields s, f ≠ [] ∧ ∀ c ∈ f, isSpace c = false :=
  fieldsLoop_spec s [] (by simp)

/-- C13 (request-line validation): `parseRequest` returns nil exactly when the
request line does not split into exactly three fields separated by white space;
otherwise it returns a request whose method is the first field and whose path is
the second; when it returns nil, `handleConnection` answers with status 400 and
body "Bad Request".  The request line is the text before the first CRLF of the
input (the whole input when it holds none), so it holds no CRLF, and its fields
are non-empty and free of white space. -/
theorem request_line_validation (s : HTTPServer) (data : Str) :
    (parseRequest data = none ↔ (Fields (requestLineText data)).length ≠ 3) ∧
      (∀ req, parseRequest data = some req →
        ∃ version, Fields (requestLineText data) = [req.Method, req.Path, version]) ∧
      (parseRequest data = none →
        handleConnection s data =
          { StatusCode := 400, Headers := [], Body := "Bad Request".toList }) ∧
      ((data = requestLineText data ∨
          ∃ rest, data = requestLineText data ++ ['\r', '\n'] ++ rest) ∧
        ¬ ['\r', '\n'] <:+: requestLineText data) ∧
      (∀ f ∈ Fields (requestLineText data), f ≠ [] ∧ ∀ c ∈ f, isSpace c = false) := by
  refine ⟨parseRequest_eq_none_iff data, parseRequest_fields data, ?_,
    requestLineText_spec data, Fields_spec _⟩
  intro h
  simp only [handleConnection, h]

/-- A request line of two fields is refused with status 400; one of three
fields gives the method and the path. -/
theorem request_line_validation_witness :
    parseRequest "GET /health\r\nHost: localhost\r\n\r\n".toList = none ∧
      handleConnection (NewHTTPServer "0.0.0.0".toList 4222)
          "GET /health\r\nHost: localhost\r\n\r\n".toList =
        { StatusCode := 400, Headers := [], Body := "Bad Request".toList } ∧
      (parseRequest "GET /health HTTP/1.1\r\nHost: localhost\r\n\r\n".toList).map
          (fun req => (req.Method, req.Path)) =
        some ("GET".toList, "/health".toList) :=
  ⟨by decide,
    (request_line_validation (NewHTTPServer "0.0.0.0".toList 4222)
      "GET /health\r\nHost: localhost\r\n\r\n".toList).2.2.1 (by decide),
    by decide⟩

/-! ### The handler chain -/

/-- The handlers called by a loop are an initial segment of the chain. -/
theorem runChain_called_initial (hs : List Handler) :
    ∀ c : Ctx, (runChain hs c).2 <+: hs := by
  induction hs with
  | nil => intro c; exact ⟨[], rfl⟩
  | cons h hs ih =>
    intro c
    by_cases hf : (h c).moveAhead = true
    · simp only [runChain, hf, Bool.not_true, Bool.false_eq_true, if_false]
      obtain ⟨t, ht⟩ := ih (h c)
      exact ⟨t, by rw [List.cons_append, ht]⟩
    · simp only [runChain, hf, Bool.not_false, if_true]
      exact ⟨hs, rfl⟩

/-- What a loop leaves is what the handlers it called make of the start, one
after the other. -/
theorem runChain_fold (hs : List Handler) :
    ∀ c : Ctx, (runChain hs c).1 = (runChain hs c).2.foldl (fun c h => h c) c := by
  induction hs with
  | nil => intro c; rfl
  | cons h hs ih =>
    intro c
    by_cases hf : (h c).moveAhead = true
    · simp only [runChain, hf, Bool.not_true, Bool.false_eq_true, if_false, List.foldl_cons]
      exact ih (h c)
    · simp only [runChain, hf, Bool.not_false, if_true, List.foldl_cons, List.foldl_nil]

/-- A handler that leaves the flag false is the last one called. -/
theorem runChain_cleared_last (hs : List Handler) :
    ∀ (c : Ctx) (pre : List Handler) (h : Handler) (post : List Handler),
      (runChain hs c).2 = pre ++ h :: post →
      (h (pre.foldl (fun c h => h c) c)).moveAhead = false → post = [] := by
  induction hs with
  | nil =>
    intro c pre h post he _
    simp [runChain] at he
  | cons h0 hs ih =>
    intro c pre h post he hfl
    by_cases hf : (h0 c).moveAhead = true
    · simp only [runChain, hf, Bool.not_true, Bool.false_eq_true, if_false] at he
      cases pre with
      | nil =>
        simp only [List.nil_append, List.cons.injEq] at he
        obtain ⟨h1, -⟩ := he
        subst h1
        simp only [List.foldl_nil] at hfl
        rw [hf] at hfl
        cases hfl
      | cons p pre =>
        simp only [List.cons_append, List.cons.injEq] at he
        obtain ⟨h1, h2⟩ := he
        subst h1
        exact ih (h0 c) pre h post h2 hfl
    · simp only [runChain, hf, Bool.not_false, if_true] at he
      cases pre with
      | nil =>
        simp only [List.nil_append, List.cons.injEq] at he
        exact he.2.symm
      | cons p pre =>
        simp only [List.cons_append, List.cons.injEq] at he
        have := he.2
        simp at this

/-- A loop that leaves the flag true has called the whole chain. -/
theorem runChain_all (hs : List Handler) :
    ∀ c : Ctx, (runChain hs c).1.moveAhead = true → (runChain hs c).2 = hs := by
  induction hs with
  | nil => intro c _; rfl
  | cons h hs ih =>
    intro c hm
    by_cases hf : (h c).moveAhead = true
    · simp only [runChain, hf, Bool.not_true, Bool.false_eq_true, if_false] at hm ⊢
      rw [ih (h c) hm]
    · simp [runChain, hf] at hm

/-- Two loops in a row, the second entered only if the first leaves the flag
true, are one loop over the two chains put end to end. -/
theorem runChain_append (a b : List Handler) :
    ∀ c : Ctx, c.moveAhead = true →
      runChain (a ++ b) c =
        if !(runChain a c).1.moveAhead then runChain a c
        else ((runChain b (runChain a c).1).1, (runChain a c).2 ++ (runChain b (runChain a c).1).2) := by
  induction a with
  | nil =>
    intro c hc
    simp [runChain, hc]
  | cons h a ih =>
    intro c hc
    by_cases hf : (h c).moveAhead = true
    · have hn : ¬ (!(h c).moveAhead) = true := by simp [hf]
      rw [List.cons_append, runChain, if_neg hn, ih (h c) hf, runChain, if_neg hn]
      by_cases hm : (runChain a (h c)).1.moveAhead = true
      · simp [hm]
      · simp [hm]
    · have hn : (!(h c).moveAhead) = true := by simp [hf]
      rw [List.cons_append, runChain, if_pos hn, runChain, if_pos hn]
      simp [hf]

/-- The two loops of `routeRequest` are one loop over the middleware followed
by the handlers registered under the path key of the request. -/
theorem routeRequest_eq_runChain (s : HTTPServer) (req : HTTPRequest) (resp : HTTPResponse) :
    routeRequest s req resp =
      runChain (s.appMiddleware ++ (s.routes.lookup (pathKey req.Method req.Path)).getD [])
        { req := req, resp := resp, moveAhead := true } := by
  rw [runChain_append _ _ _ rfl]
  unfold routeRequest
  simp only []
  by_cases hm : (runChain s.appMiddleware
      { req := req, resp := resp, moveAhead := true }).1.moveAhead = true
  · simp only [hm, Bool.not_true, Bool.false_eq_true, if_false]
    cases hl : s.routes.lookup (pathKey req.Method req.Path) with
    | none => simp [runChain]
    | some hs => simp
  · simp [hm]

/-- The path key is the method, one space, and the path. -/
theorem pathKey_eq (method path : Str) : pathKey method path = method ++ [' '] ++ path :=
  rfl

/-- Two requests whose methods hold no space have the same path key only if
they have the same method and the same path. -/
theorem pathKey_injective (m1 : Str) :
    ∀ (m2 p1 p2 : Str), ' ' ∉ m1 → ' ' ∉ m2 → pathKey m1 p1 = pathKey m2 p2 →
      m1 = m2 ∧ p1 = p2 := by
  induction m1 with
  | nil =>
    intro m2 p1 p2 _ h2 h
    cases m2 with
    | nil =>
      simp only [pathKey_eq, List.nil_append, List.singleton_append, List.cons.injEq,
        true_and] at h
      exact ⟨rfl, h⟩
    | cons d m2 =>
      simp only [pathKey_eq, List.nil_append, List.singleton_append, List.cons_append,
        List.cons.injEq] at h
      exact absurd (h.1 ▸ List.mem_cons_self _ _) h2
  | cons c m1 ih =>
    intro m2 p1 p2 h1 h2 h
    cases m2 with
    | nil =>
      simp only [pathKey_eq, List.nil_append, List.singleton_append, List.cons_append,
        List.cons.injEq] at h
      exact absurd (h.1 ▸ List.mem_cons_self _ _) h1
    | cons d m2 =>
      simp only [pathKey_eq, List.cons_append, List.cons.injEq] at h
      obtain ⟨hcd, hrest⟩ := h
      have := ih m2 p1 p2 (fun hm => h1 (List.mem_cons_of_mem _ hm))
        (fun hm => h2 (List.mem_cons_of_mem _ hm)) (by simpa [pathKey_eq] using hrest)
      exact ⟨by rw [hcd, this.1], this.2⟩

/-- C14 (handler chain order and short-circuit): the middleware and handlers
that `routeRequest` calls are, in order, an initial segment of the app-level
middleware in registration order followed by the handlers registered under the
key made of the method of the request, one space, and its path, in registration
order (no handlers when that key is not registered); what it leaves is what the
called ones make of the request, the response and the flag set to true, one
after the other; a middleware or handler that leaves the flag false is the last
one called; and when the flag is true at the end the whole chain was called.  In
particular, when no route is registered under the key, or when a middleware
leaves the flag false, only middleware are called.  `Use` appends to the
middleware and `AddRoute` registers the handlers as given under the key made of
its method, one space, and its path; keys of requests with different methods,
or different paths, differ. -/
theorem handler_chain_order (s : HTTPServer) (req : HTTPRequest) (resp : HTTPResponse) :
    (routeRequest s req resp).2 <+:
        s.appMiddleware ++ (s.routes.lookup (req.Method ++ [' '] ++ req.Path)).getD [] ∧
      (routeRequest s req resp).1 =
        (routeRequest s req resp).2.foldl (fun c h => h c)
          { req := req, resp := resp, moveAhead := true } ∧
      (∀ (pre : List Handler) (h : Handler) (post : List Handler),
        (routeRequest s req resp).2 = pre ++ h :: post →
        (h (pre.foldl (fun c h => h c)
          { req := req, resp := resp, moveAhead := true })).moveAhead = false →
        post = []) ∧
      ((routeRequest s req resp).1.moveAhead = true →
        (routeRequest s req resp).2 =
          s.appMiddleware ++ (s.routes.lookup (req.Method ++ [' '] ++ req.Path)).getD []) ∧
      (s.routes.lookup (req.Method ++ [' '] ++ req.Path) = none →
        (routeRequest s req resp).2 <+: s.appMiddleware) ∧
      ((runChain s.appMiddleware
          { req := req, resp := resp, moveAhead := true }).1.moveAhead = false →
        (routeRequest s req resp).2 <+: s.appMiddleware) ∧
      (∀ m : Handler, (Use s m).appMiddleware = s.appMiddleware ++ [m] ∧
        (Use s m).routes = s.routes) ∧
      (∀ (method path : Str) (hs : List Handler) (s1 : HTTPServer),
        AddRoute s method path hs = some s1 →
        s1.routes.lookup (method ++ [' '] ++ path) = some hs ∧
          s1.routes = (method ++ [' '] ++ path, hs) :: s.routes ∧
          s.routes.lookup (method ++ [' '] ++ path) = none ∧
          s1.appMiddleware = s.appMiddleware) ∧
      (∀ m1 p1 m2 p2 : Str, ' ' ∉ m1 → ' ' ∉ m2 →
        m1 ++ [' '] ++ p1 = m2 ++ [' '] ++ p2 → m1 = m2 ∧ p1 = p2) := by
  have hkey : req.Method ++ [' '] ++ req.Path = pathKey req.Method req.Path := rfl
  rw [hkey]
  refine ⟨?_, ?_, ?_, ?_, ?_, ?_, ?_, ?_, ?_⟩
  · rw [routeRequest_eq_runChain]
    exact runChain_called_initial _ _
  · rw [routeRequest_eq_runChain]
    exact runChain_fold _ _
  · intro pre h post he hf
    rw [routeRequest_eq_runChain] at he
    exact runChain_cleared_last _ _ pre h post he hf
  · intro hm
    rw [routeRequest_eq_runChain] at hm ⊢
    exact runChain_all _ _ hm
  · intro hl
    rw [routeRequest_eq_runChain, hl]
    simpa using runChain_called_initial s.appMiddleware _
  · intro hm
    have : routeRequest s req resp =
        runChain s.appMiddleware { req := req, resp := resp, moveAhead := true } := by
      unfold routeRequest
      simp [hm]
    rw [this]
    exact runChain_called_initial _ _
  · intro m
    exact ⟨rfl, rfl⟩
  · intro method path hs s1 h
    have hk : method ++ [' '] ++ path = pathKey method path := rfl
    rw [hk]
    unfold AddRoute at h
    by_cases h1 : (s.routes.lookup (pathKey method path)).isSome = true
    · simp [h1] at h
    · by_cases h2 : hs.length = 0
      · simp [h1, h2] at h
      · simp only [h1, h2, Bool.false_eq_true, if_false] at h
        cases h
        refine ⟨by simp [List.lookup], rfl, ?_, rfl⟩
        cases hl : s.routes.lookup (pathKey method path) with
        | none => rfl
        | some v => simp [hl] at h1
  · intro m1 p1 m2 p2 h1 h2 h
    exact pathKey_injective m1 m2 p1 p2 h1 h2 h

/-- The server of `main.go`.  On `GET /secure` without the token the logging
middleware and the authentication middleware are called, the route handler is
not, and the response is the one the authentication left.  On `POST /health`
no route is registered under "POST /health", so only the logging middleware is
called, while on `GET /health` the handler of the route is called as well. -/
theorem handler_chain_order_witness :
    (routeRequest mainServer
        { Method := "GET".toList, Path := "/secure".toList, Headers := [], Body := [] }
        { StatusCode := 0, Headers := [], Body := [] }).2 =
        [loggingMiddleware] ++ authMiddleware :: [] ∧
      (authMiddleware
        (([loggingMiddleware] : List Handler).foldl (fun c h => h c)
          { req := { Method := "GET".toList, Path := "/secure".toList, Headers := [], Body := [] }
            resp := { StatusCode := 0, Headers := [], Body := [] }
            moveAhead := true })).moveAhead = false ∧
      (routeRequest mainServer
        { Method := "GET".toList, Path := "/secure".toList, Headers := [], Body := [] }
        { StatusCode := 0, Headers := [], Body := [] }).1.resp.StatusCode = 401 ∧
      ([] : List Handler) = [] ∧
      mainServer.routes.lookup ("POST".toList ++ [' '] ++ "/health".toList) = none ∧
      mainServer.routes.lookup ("GET".toList ++ [' '] ++ "/health".toList) =
        some [healthHandler] ∧
      (routeRequest mainServer
        { Method := "POST".toList, Path := "/health".toList, Headers := [], Body := [] }
        { StatusCode := 0, Headers := [], Body := [] }).2 = [loggingMiddleware] ∧
      (routeRequest mainServer
        { Method := "POST".toList, Path := "/health".toList, Headers := [], Body := [] }
        { StatusCode := 0, Headers := [], Body := [] }).1.resp.StatusCode = 0 ∧
      (routeRequest mainServer
        { Method := "GET".toList, Path := "/health".toList, Headers := [], Body := [] }
        { StatusCode := 0, Headers := [], Body := [] }).2 =
        [loggingMiddleware, healthHandler] ∧
      (routeRequest mainServer
        { Method := "GET".toList, Path := "/health".toList, Headers := [], Body := [] }
        { StatusCode := 0, Headers := [], Body := [] }).1.resp.StatusCode = 200 ∧
      (routeRequest mainServer
        { Method := "POST".toList, Path := "/health".toList, Headers := [], Body := [] }
        { StatusCode := 0, Headers := [], Body := [] }).2 <+: mainServer.appMiddleware :=
  ⟨rfl, by decide, by decide,
    (handler_chain_order mainServer
      { Method := "GET".toList, Path := "/secure".toList, Headers := [], Body := [] }
      { StatusCode := 0, Headers := [], Body := [] }).2.2.1
      [loggingMiddleware] authMiddleware [] rfl (by decide),
    rfl, rfl, rfl, by decide, rfl, by decide,
    (handler_chain_order mainServer
      { Method := "POST".toList, Path := "/health".toList, Headers := [], Body := [] }
      { StatusCode := 0, Headers := [], Body := [] }).2.2.2.2.1 rfl⟩

/-- The calls of `main` on a new server build `mainServer`. -/
theorem mainServer_built :
    ((AddRoute (Use (NewHTTPServer "0.0.0.0".toList 4222) loggingMiddleware)
        "GET".toList "/health".toList [healthHandler]).bind
      fun s => AddRoute s "GET".toList "/secure".toList [authMiddleware, secureHandler]) =
      some mainServer := by
  rfl

/-- C15 (default 404): for a request text that `parseRequest` accepts, the
response that `handleConnection` passes to `writeResponse` is the response the
chain of `routeRequest` left, started from status 0 and empty headers, with the
status set to 404 and the body to "Not Found" when the chain left status 0, and
unchanged, status and body as the chain left them, when it left a non-zero
status.  In particular the response is 404 "Not Found" when no route is
registered under the key made of the method of the request, one space, and its
path (whatever is registered for the same path under another method), and the
middleware leave status 0. -/
theorem default_not_found (s : HTTPServer) (data : Str) (req : HTTPRequest)
    (hreq : parseRequest data = some req) :
    ((routeRequest s req { StatusCode := 0, Headers := [], Body := [] }).1.resp.StatusCode = 0 →
        handleConnection s data =
          { (routeRequest s req { StatusCode := 0, Headers := [], Body := [] }).1.resp with
            StatusCode := 404, Body := "Not Found".toList }) ∧
      ((routeRequest s req { StatusCode := 0, Headers := [], Body := [] }).1.resp.StatusCode ≠ 0 →
        handleConnection s data =
          (routeRequest s req { StatusCode := 0, Headers := [], Body := [] }).1.resp) ∧
      (s.routes.lookup (req.Method ++ [' '] ++ req.Path) = none →
        (runChain s.appMiddleware
          { req := req, resp := { StatusCode := 0, Headers := [], Body := [] },
            moveAhead := true }).1.resp.StatusCode = 0 →
        (handleConnection s data).StatusCode = 404 ∧
          (handleConnection s data).Body = "Not Found".toList) ∧
      (s.routes.lookup (req.Method ++ [' '] ++ req.Path) = none →
        handleConnection s data =
          if (runChain s.appMiddleware
              { req := req, resp := { StatusCode := 0, Headers := [], Body := [] },
                moveAhead := true }).1.resp.StatusCode = 0 then
            { (runChain s.appMiddleware
                { req := req, resp := { StatusCode := 0, Headers := [], Body := [] },
                  moveAhead := true }).1.resp with
              StatusCode := 404, Body := "Not Found".toList }
          else
            (runChain s.appMiddleware
              { req := req, resp := { StatusCode := 0, Headers := [], Body := [] },
                moveAhead := true }).1.resp) := by
  have hkey : req.Method ++ [' '] ++ req.Path = pathKey req.Method req.Path := rfl
  rw [hkey]
  have hroute : s.routes.lookup (pathKey req.Method req.Path) = none →
      routeRequest s req { StatusCode := 0, Headers := [], Body := [] } =
        runChain s.appMiddleware
          { req := req, resp := { StatusCode := 0, Headers := [], Body := [] },
            moveAhead := true } := by
    intro hl
    rw [routeRequest_eq_runChain, hl]
    simp
  refine ⟨?_, ?_, ?_, ?_⟩
  · intro h0
    simp only [handleConnection, hreq, h0, if_true]
  · intro h0
    simp only [handleConnection, hreq, h0, if_false]
  · intro hl h0
    rw [← hroute hl] at h0
    simp only [handleConnection, hreq, h0, if_true, and_self]
  · intro hl
    simp only [handleConnection, hreq, hroute hl]

/-- The server of `main.go` answers 404 on a path with no route, and 404 on
`POST /health`, for which nothing is registered although `GET /health` is; on
`GET /health` it answers what the handler wrote. -/
theorem default_not_found_witness :
    parseRequest "POST /health HTTP/1.1\r\nHost: localhost\r\n\r\n".toList =
        some { Method := "POST".toList, Path := "/health".toList
               Headers := [("Host".toList, "localhost".toList)], Body := [] } ∧
      mainServer.routes.lookup ("POST".toList ++ [' '] ++ "/health".toList) = none ∧
      ((handleConnection mainServer
          "POST /health HTTP/1.1\r\nHost: localhost\r\n\r\n".toList).StatusCode = 404 ∧
        (handleConnection mainServer
          "POST /health HTTP/1.1\r\nHost: localhost\r\n\r\n".toList).Body =
          "Not Found".toList) ∧
      handleConnection mainServer "POST /health HTTP/1.1\r\nHost: localhost\r\n\r\n".toList =
        { StatusCode := 404, Headers := [], Body := "Not Found".toList } ∧
      handleConnection mainServer "GET /missing HTTP/1.1\r\nHost: localhost\r\n\r\n".toList =
        { StatusCode := 404, Headers := [], Body := "Not Found".toList } ∧
      handleConnection mainServer "GET /health HTTP/1.1\r\n\r\n".toList =
        { StatusCode := 200
          Headers := [("Content-Type".toList, "application/json".toList)]
          Body := "OK\r\n".toList } :=
  ⟨by decide, rfl,
    (default_not_found mainServer "POST /health HTTP/1.1\r\nHost: localhost\r\n\r\n".toList
      { Method := "POST".toList, Path := "/health".toList
        Headers := [("Host".toList, "localhost".toList)], Body := [] }
      (by decide)).2.2.1 rfl (by decide),
    by decide, by decide, by decide⟩

/-! ### The body -/

theorem Cut_cons_of_match {sep : Str} {c : Char} {rest : Str}
    (h : sep.isPrefixOf (c :: rest) = true) :
    Cut (c :: rest) sep = ([], some ((c :: rest).drop sep.length)) := by
  simp [Cut, h]

theorem Cut_cons_of_no_match {sep : Str} {c : Char} {rest : Str}
    (h : ¬ sep.isPrefixOf (c :: rest) = true) :
    Cut (c :: rest) sep = (c :: (Cut rest sep).1, (Cut rest sep).2) := by
  simp [Cut, h]

/-- When the first instance of the separator in `head ++ sep ++ body` is the
one written after `head`, `Cut` cuts there. -/
theorem Cut_append (sep : Str) (hsep : sep ≠ []) (body : Str) :
    ∀ head : Str, ¬ sep <:+: head ++ sep.dropLast →
      Cut (head ++ sep ++ body) sep = (head, some body) := by
  intro head
  induction head with
  | nil =>
    intro _
    cases hs : sep with
    | nil => exact absurd hs hsep
    | cons d sep1 =>
      have hp : (d :: sep1).isPrefixOf (d :: (sep1 ++ body)) = true :=
        List.isPrefixOf_iff_prefix.mpr ⟨body, rfl⟩
      rw [show [] ++ (d :: sep1) ++ body = d :: (sep1 ++ body) from rfl,
        Cut_cons_of_match hp]
      simp
  | cons c head ih =>
    intro hn
    have hn1 : ¬ sep <:+: head ++ sep.dropLast := by
      intro h
      apply hn
      rw [List.cons_append]
      exact List.infix_cons_iff.mpr (Or.inr h)
    have hnp : ¬ sep.isPrefixOf (c :: (head ++ sep ++ body)) = true := by
      intro hp
      apply hn
      obtain ⟨t, ht⟩ := List.isPrefixOf_iff_prefix.mp hp
      have hlast : sep = sep.dropLast ++ [sep.getLast hsep] :=
        (List.dropLast_append_getLast hsep).symm
      have hlen : sep.length ≤ (c :: (head ++ sep.dropLast)).length := by
        simp [List.length_dropLast]
        have : 0 < sep.length := List.length_pos.mpr hsep
        omega
      have hpre : (c :: (head ++ sep.dropLast)) <+: c :: (head ++ sep ++ body) := by
        refine ⟨[sep.getLast hsep] ++ body, ?_⟩
        conv_rhs => rw [hlast]
        simp
      have h1 : sep <+: c :: (head ++ sep ++ body) := ⟨t, ht⟩
      have h2 : sep <+: c :: (head ++ sep.dropLast) :=
        List.prefix_of_prefix_length_le h1 hpre hlen
      rw [List.cons_append]
      exact h2.isInfix
    rw [show (c :: head) ++ sep ++ body = c :: (head ++ sep ++ body) from rfl,
      Cut_cons_of_no_match hnp, ih hn1]

/-- The piece after the first one, when the text holds the separator. -/
theorem Split_getD_one (sep : Str) (hsep : sep ≠ []) (s before after : Str)
    (h : Cut s sep = (before, some after)) :
    (Split s sep).length > 1 ∧ (Split s sep).getD 1 [] = (Cut after sep).1 := by
  have hs : s = before ++ sep ++ after := by
    have := Cut_of_some sep s after (by rw [h])
    rw [h] at this
    exact this
  have hpos : 0 < sep.length := List.length_pos.mpr hsep
  have hlen : s.length = before.length + sep.length + after.length := by
    rw [hs]
    simp only [List.length_append]
  obtain ⟨n, hn⟩ : ∃ n, s.length = n + 1 := ⟨s.length - 1, by omega⟩
  unfold Split
  rw [hn]
  simp only [SplitN, h]
  have hhead := SplitN_headD sep after n (by omega)
  cases hsp : SplitN after sep (n + 1) with
  | nil =>
    cases n with
    | zero => simp [SplitN] at hsp
    | succ n =>
      simp only [SplitN] at hsp
      cases hc : Cut after sep with
      | mk b a =>
        rw [hc] at hsp
        cases a <;> simp at hsp
  | cons x xs =>
    rw [hsp] at hhead
    simp at hhead
    simp [hhead]

/-- What `parseRequest` takes as the body of `head ++ CRLF CRLF ++ body`, when
the first empty line is the one written after `head`: the text of `body` before
its own first empty line. -/
theorem parseRequest_body (head body : Str) (req : HTTPRequest)
    (hhead : ¬ ['\r', '\n', '\r', '\n'] <:+: head ++ ['\r', '\n', '\r'])
    (h : parseRequest (head ++ ['\r', '\n', '\r', '\n'] ++ body) = some req) :
    req.Body = (Cut body ['\r', '\n', '\r', '\n']).1 := by
  have hc := Cut_append ['\r', '\n', '\r', '\n'] (by simp) body head hhead
  obtain ⟨h1, h2⟩ := Split_getD_one ['\r', '\n', '\r', '\n'] (by simp) _ head body hc
  rw [parseRequest_eq] at h
  by_cases h3 : (Fields (requestLineText (head ++ ['\r', '\n', '\r', '\n'] ++ body))).length ≠ 3
  · rw [if_pos h3] at h
    cases h
  · rw [if_neg h3] at h
    cases h
    simp only [h1, if_true, h2]

/-- A request text without an empty line has the empty string as its body. -/
theorem parseRequest_body_of_no_separator (data : Str) (req : HTTPRequest)
    (hsep : (Cut data ['\r', '\n', '\r', '\n']).2 = none)
    (h : parseRequest data = some req) : req.Body = [] := by
  have hlen : ¬ (Split data ['\r', '\n', '\r', '\n']).length > 1 := by
    unfold Split
    cases hl : data.length with
    | zero => simp [SplitN]
    | succ n =>
      simp only [SplitN]
      cases hc : Cut data ['\r', '\n', '\r', '\n'] with
      | mk b a =>
        rw [hc] at hsep
        simp only at hsep
        subst hsep
        simp
  rw [parseRequest_eq] at h
  by_cases h3 : (Fields (requestLineText data)).length ≠ 3
  · rw [if_pos h3] at h
    cases h
  · rw [if_neg h3] at h
    cases h
    simp only [hlen, if_false]

/-- C19, the failing input: a body of two paragraphs separated by an empty
line.  The head holds no empty line and its first line has three fields, yet
the body that `parseRequest` returns is the first paragraph only. -/
theorem body_extraction_failing_input :
    parseRequest
        ("POST /notes HTTP/1.1\r\nHost: localhost".toList ++ ['\r', '\n', '\r', '\n'] ++
          "first paragraph\r\n\r\nsecond paragraph".toList) =
        some { Method := "POST".toList, Path := "/notes".toList
               Headers := [("Host".toList, "localhost".toList)]
               Body := "first paragraph".toList } ∧
      "first paragraph".toList ≠ "first paragraph\r\n\r\nsecond paragraph".toList ∧
      ¬ ['\r', '\n', '\r', '\n'] <:+: "POST /notes HTTP/1.1\r\nHost: localhost".toList ∧
      (Fields (requestLineText
        ("POST /notes HTTP/1.1\r\nHost: localhost".toList ++ ['\r', '\n', '\r', '\n'] ++
          "first paragraph\r\n\r\nsecond paragraph".toList))).length = 3 := by
  refine ⟨by decide, by decide, ?_, by decide⟩
  decide

end Server
